import Mathlib

/-!
# Stack: block-stacking geometry and tower state engine

A shallow embedding of `src/script.js` (classes `BlockModel`,
`FallingBlockModel`, `PlacedBlockModel`, `LayerModel`, `Tower`, `Game`) together
with theorems about the cut algorithm, the per-frame motion, the tower
invariants and the game life cycle.

Modelling conventions

* JavaScript numbers are modelled as exact rationals (`ℚ`); the tower's
  `_direction` and `score` are integers (`ℤ`).  The main embedding carries out
  the arithmetic exactly.  A second embedding of `cut`, `tick` and `place`
  (the definitions with suffix `D`) rounds every arithmetic operation to the
  nearest binary64 value, as JavaScript does; it is used where rounding
  decides a statement.
* A `null` field is `Option.none`.  A statement that throws a `TypeError`
  (a property read on `null`/`undefined`) makes the operation return `none`.
* Objects are mutated in place in the source; here every operation returns
  the new state.
* The three.js mesh of a block is reduced to its `position`; scene graph,
  geometry and material objects are rendering collaborators and are left out
  (the colour passed to the constructor is kept).
* Calls to the collaborators `onScoreUpdate`, `onFinish` and
  `camera.syncPosition` are recorded as a list of `Event`s, in call order.
-/

namespace Stack

/-! ## Constants -/

/-- Colour keys of the `COLOR` table that blocks are built with. -/
inductive Color where
  | baseBlock
  | movingBlock
  | placedBlock
  | fallingBlock
deriving DecidableEq, Repr

/-- The value `BASE_BLOCK_SIZE.width`. -/
def BASE_BLOCK_SIZE_width : ℚ := 10

/-- The value `BASE_BLOCK_SIZE.height`. -/
def BASE_BLOCK_SIZE_height : ℚ := 3

/-- The value `BASE_BLOCK_SIZE.depth`. -/
def BASE_BLOCK_SIZE_depth : ℚ := 10

/-- Speed of the moving block, `SPEED_FACTOR`. -/
def SPEED_FACTOR : ℚ := 10

/-- Maximal deviation of the moving block from the centre, `MOVING_RANGE`. -/
def MOVING_RANGE : ℚ := 15

/-- Fall rate used by `FallingBlockModel.tick` (the literal `25`). -/
def FALL_RATE : ℚ := 25

/-! ## Vectors and blocks -/

/-- The axis a layer slides along: the strings `'x'` and `'z'`. -/
inductive Axis where
  | x
  | z
deriving DecidableEq, Repr

/-- A `THREE.Vector3`, reduced to its three coordinates. -/
structure Vector3 where
  x : ℚ
  y : ℚ
  z : ℚ
deriving DecidableEq, Repr

/-- Read `position[axis]`. -/
def Vector3.get (v : Vector3) : Axis → ℚ
  | Axis.x => v.x
  | Axis.z => v.z

/-- Assign `position[axis] = a`. -/
def Vector3.set (v : Vector3) (axis : Axis) (a : ℚ) : Vector3 :=
  match axis with
  | Axis.x => { v with x := a }
  | Axis.z => { v with z := a }

/-- A `BlockModel`: sizes, colour and `mesh.position`. -/
structure BlockModel where
  width : ℚ
  height : ℚ
  depth : ℚ
  position : Vector3
  color : Color
deriving DecidableEq, Repr

/-- Constructor properties of a block; an absent key (`undefined`) is `none`
and takes the constructor's default. -/
structure BlockProps where
  width : ℚ
  height : Option ℚ := none
  depth : ℚ
  initPosition : Option Vector3 := none
  color : Option Color := none
deriving DecidableEq, Repr

/-- The `BlockModel` constructor: `height` defaults to
`BASE_BLOCK_SIZE.height`, `initPosition` to the origin, `color` to
`COLOR.movingBlock`; the mesh position is a copy of `initPosition`. -/
def BlockModel.new (props : BlockProps) : BlockModel :=
  { width := props.width
    height := props.height.getD BASE_BLOCK_SIZE_height
    depth := props.depth
    position := props.initPosition.getD ⟨0, 0, 0⟩
    color := props.color.getD Color.movingBlock }

/-! ## Layers -/

/-- A `LayerModel`. -/
structure LayerModel where
  axis : Axis
  movingBlock : Option BlockModel
  placedBlock : Option BlockModel
  fallingBlock : Option BlockModel
  overlap : ℚ
  isCuttingBehind : Bool
deriving DecidableEq, Repr

/-- Getter `isAxisX`. -/
def LayerModel.isAxisX (layer : LayerModel) : Bool := layer.axis = Axis.x

/-- Getter `isAxisZ`. -/
def LayerModel.isAxisZ (layer : LayerModel) : Bool := layer.axis = Axis.z

/-- The field `_initMovingBlockPosition`. -/
def initMovingBlockPosition : ℚ := -MOVING_RANGE

/-- The `LayerModel` constructor: a moving block at `-MOVING_RANGE` along
`axis`, the other coordinates as given. -/
def LayerModel.new (axis : Axis) (width depth x y z : ℚ) : LayerModel :=
  let isAxisX : Bool := axis = Axis.x
  let isAxisZ : Bool := axis = Axis.z
  { axis := axis
    movingBlock := some (BlockModel.new
      { width := width
        depth := depth
        initPosition := some
          ⟨if isAxisX then initMovingBlockPosition else x,
           y,
           if isAxisZ then initMovingBlockPosition else z⟩ })
    placedBlock := none
    fallingBlock := none
    overlap := 0
    isCuttingBehind := false }

/-- Properties of the falling block when the whole moving block falls
(`getLastBlockProps`); `mb` is `layer.movingBlock`. -/
def getLastBlockProps (mb : BlockModel) : BlockProps :=
  { width := mb.width
    depth := mb.depth
    initPosition := some mb.position }

/-- Coordinate of the falling part along the axis of motion
(`calcFallingPosition`), with exact arithmetic; `calcFallingPositionD` is the
same expression as evaluated in doubles. -/
def calcFallingPosition (layer : LayerModel) (axisPosition : ℚ) : ℚ :=
  let shift := axisPosition + layer.overlap / 2
  if layer.isCuttingBehind then shift - layer.overlap else shift

/-- Properties of the part that is cut off and falls
(`getFallingBlockProps`); `mb` is `layer.movingBlock`. -/
def getFallingBlockProps (layer : LayerModel) (mb : BlockModel) : BlockProps :=
  let x := if layer.isAxisX then calcFallingPosition layer mb.position.x else mb.position.x
  let z := if layer.isAxisZ then calcFallingPosition layer mb.position.z else mb.position.z
  { width := if layer.isAxisX then mb.width - layer.overlap else mb.width
    depth := if layer.isAxisZ then mb.depth - layer.overlap else mb.depth
    initPosition := some ⟨x, mb.position.y, z⟩ }

/-- The `FallingBlockModel` constructor. -/
def FallingBlockModel.new (layer : LayerModel) (mb : BlockModel)
    (isLastFallingBlock : Bool) : BlockModel :=
  let props := if isLastFallingBlock then getLastBlockProps mb
    else getFallingBlockProps layer mb
  BlockModel.new { props with color := some Color.fallingBlock }

/-- Method `FallingBlockModel.tick`: `position.y -= delta * 25`. -/
def FallingBlockModel.tick (b : BlockModel) (delta : ℚ) : BlockModel :=
  { b with position := { b.position with y := b.position.y - delta * FALL_RATE } }

/-- Shift of the placed block relative to the moving block
(`calcPlacedBlockShift`), with exact arithmetic; `calcPlacedBlockShiftD` is the
same expression as evaluated in doubles. -/
def calcPlacedBlockShift (sideSize : ℚ) (layer : LayerModel) : ℚ :=
  let shift := (sideSize - layer.overlap) / 2
  let sign : ℚ := if layer.isCuttingBehind then 1 else -1
  shift * sign

/-- Properties of the block that stays on the tower
(`calcPlacedBlockProps`); `mb` is `layer.movingBlock`. -/
def calcPlacedBlockProps (layer : LayerModel) (mb : BlockModel) : BlockProps :=
  let width := if layer.isAxisX then layer.overlap else mb.width
  let depth := if layer.isAxisZ then layer.overlap else mb.depth
  let x := if layer.isAxisX
    then mb.position.x + calcPlacedBlockShift mb.width layer
    else mb.position.x
  let z := if layer.isAxisZ
    then mb.position.z + calcPlacedBlockShift mb.depth layer
    else mb.position.z
  { width := width
    depth := depth
    initPosition := some ⟨x, mb.position.y, z⟩
    color := some Color.placedBlock }

/-- The `PlacedBlockModel` constructor. -/
def PlacedBlockModel.new (layer : LayerModel) (mb : BlockModel) : BlockModel :=
  BlockModel.new (calcPlacedBlockProps layer mb)

/-- Method `_removeMovingBlock`. -/
def LayerModel.removeMovingBlock (layer : LayerModel) : LayerModel :=
  { layer with movingBlock := none }

/-- Method `_createPlacedBlock`; `none` when `movingBlock` is `null`. -/
def LayerModel.createPlacedBlock (layer : LayerModel) : Option LayerModel :=
  match layer.movingBlock with
  | none => none
  | some mb => some { layer with placedBlock := some (PlacedBlockModel.new layer mb) }

/-- Method `_createFallingBlock`; `none` when `movingBlock` is `null`. -/
def LayerModel.createFallingBlock (layer : LayerModel) (isLastFallingBlock : Bool) :
    Option LayerModel :=
  match layer.movingBlock with
  | none => none
  | some mb =>
    some { layer with fallingBlock := some (FallingBlockModel.new layer mb isLastFallingBlock) }

/-- The overlap computed in the first statement of `cut`, with exact
arithmetic; `cutOverlapD` is the same expression as evaluated in doubles. -/
def cutOverlap (layer : LayerModel) (mb prevPlacedBlock : BlockModel) : ℚ :=
  if layer.isAxisX
  then mb.width - |mb.position.x - prevPlacedBlock.position.x|
  else mb.depth - |mb.position.z - prevPlacedBlock.position.z|

/-- Method `LayerModel.cut`: returns the layer after the call and the boolean
result; `none` when `movingBlock` is `null` (the first statement throws). -/
def LayerModel.cut (layer : LayerModel) (prevPlacedBlock : BlockModel) :
    Option (LayerModel × Bool) :=
  match layer.movingBlock with
  | none => none
  | some mb =>
    let l1 : LayerModel := { layer with overlap := cutOverlap layer mb prevPlacedBlock }
    if l1.overlap ≤ 0 then
      (l1.createFallingBlock true).map fun l2 => (l2.removeMovingBlock, false)
    else
      let l2 : LayerModel := { l1 with
        isCuttingBehind :=
          decide (mb.position.get l1.axis - prevPlacedBlock.position.get l1.axis < 0) }
      (l2.createPlacedBlock.bind fun l3 => l3.createFallingBlock false).map
        fun l4 => (l4.removeMovingBlock, true)

/-- Method `LayerModel.clear`. -/
def LayerModel.clear (layer : LayerModel) : LayerModel :=
  { layer.removeMovingBlock with placedBlock := none, fallingBlock := none }

/-! ## Tower -/

/-- A call made to one of the tower's collaborators. -/
inductive Event where
  | scoreUpdate (score : ℤ)
  | finish
  | cameraSync (position : Vector3)
deriving DecidableEq, Repr

/-- The `Tower`: `layers`, `_direction`, `score` and `baseBlock`. -/
structure Tower where
  layers : List LayerModel
  direction : ℤ
  score : ℤ
  baseBlock : BlockModel
deriving DecidableEq, Repr

/-- Array read `xs[i]` for an integer index: `undefined` (`none`) when the
index is negative or past the end. -/
def arrayGet {α : Type} (xs : List α) (i : ℤ) : Option α :=
  if i < 0 then none else xs[i.toNat]?

/-- Getter `activeLayerIndex`: `layers.length - 1`. -/
def Tower.activeLayerIndex (t : Tower) : ℤ := (t.layers.length : ℤ) - 1

/-- Getter `activeLayer`: `layers[activeLayerIndex]`. -/
def Tower.activeLayer (t : Tower) : Option LayerModel :=
  arrayGet t.layers t.activeLayerIndex

/-- Getter `prevLayer`: `layers[activeLayerIndex - 1]`. -/
def Tower.prevLayer (t : Tower) : Option LayerModel :=
  arrayGet t.layers (t.activeLayerIndex - 1)

/-- Getter `lastPlacedBlock`: `prevLayer?.placedBlock ?? baseBlock`. -/
def Tower.lastPlacedBlock (t : Tower) : BlockModel :=
  (t.prevLayer.bind fun l => l.placedBlock).getD t.baseBlock

/-- The tower after an in-place mutation of its active layer object. -/
def Tower.setActiveLayer (t : Tower) (layer : LayerModel) : Tower :=
  { t with layers := t.layers.set t.activeLayerIndex.toNat layer }

/-- The field initialiser of `baseBlock`. -/
def baseBlockInit : BlockModel :=
  BlockModel.new
    { width := BASE_BLOCK_SIZE_width
      height := some BASE_BLOCK_SIZE_height
      depth := BASE_BLOCK_SIZE_depth
      color := some Color.baseBlock }

/-- Method `_reverseDirection`. -/
def Tower.reverseDirection (t : Tower) : Tower :=
  { t with direction := t.direction * -1 }

/-- Method `_addFirstLayer`: the constructor defaults give axis `'x'` and
`x = z = 0`. -/
def Tower.addFirstLayer (t : Tower) : Tower :=
  let layer := LayerModel.new Axis.x BASE_BLOCK_SIZE_width BASE_BLOCK_SIZE_depth
    0 BASE_BLOCK_SIZE_height 0
  { t with layers := t.layers ++ [layer] }

/-- The `Tower` constructor with its field initialisers and `_init`. -/
def Tower.new : Tower :=
  Tower.addFirstLayer { layers := [], direction := 1, score := 0, baseBlock := baseBlockInit }

/-- Method `_addLayer`: the new tower and the position passed to
`camera.syncPosition`; `none` when there is no active layer or it has no
placed block. -/
def Tower.addLayer (t : Tower) : Option (Tower × Vector3) :=
  match t.activeLayer with
  | none => none
  | some active =>
    match active.placedBlock with
    | none => none
    | some placed =>
      let layer := LayerModel.new (if active.isAxisX then Axis.z else Axis.x)
        placed.width placed.depth
        placed.position.x
        (((t.activeLayerIndex + 2 : ℤ) : ℚ) * BASE_BLOCK_SIZE_height)
        placed.position.z
      let t1 : Tower := { t with layers := t.layers ++ [layer] }
      some (t1, t1.lastPlacedBlock.position)

/-- The statement `layer.fallingBlock?.tick(delta)` of the `forEach` in
`Tower.tick`. -/
def LayerModel.tickFalling (delta : ℚ) (layer : LayerModel) : LayerModel :=
  { layer with fallingBlock := layer.fallingBlock.map fun b => FallingBlockModel.tick b delta }

/-- Method `Tower.tick`; `none` when `layers` is empty (reading
`activeLayer.movingBlock` throws). -/
def Tower.tick (t : Tower) (delta : ℚ) : Option Tower :=
  let t1 : Tower := { t with layers := t.layers.map (LayerModel.tickFalling delta) }
  match t1.activeLayer with
  | none => none
  | some active =>
    match active.movingBlock with
    | none => some t1
    | some mb =>
      let activeAxisPosition := mb.position.get active.axis
      let s1 : BlockModel × Tower :=
        if activeAxisPosition > MOVING_RANGE
        then ({ mb with position := mb.position.set active.axis MOVING_RANGE },
              t1.reverseDirection)
        else (mb, t1)
      let s2 : BlockModel × Tower :=
        if activeAxisPosition < -MOVING_RANGE
        then ({ s1.1 with position := s1.1.position.set active.axis (-MOVING_RANGE) },
              s1.2.reverseDirection)
        else s1
      let mb3 : BlockModel := { s2.1 with
        position := s2.1.position.set active.axis
          (s2.1.position.get active.axis + delta * SPEED_FACTOR * (s2.2.direction : ℚ)) }
      some (s2.2.setActiveLayer { active with movingBlock := some mb3 })

/-- Method `Tower.place`: the new tower and the collaborator calls it made;
`none` when `cut` throws (no active layer, or no moving block). -/
def Tower.place (t : Tower) : Option (Tower × List Event) :=
  match t.activeLayer with
  | none => none
  | some active =>
    match active.cut t.lastPlacedBlock with
    | none => none
    | some (active1, result) =>
      let t1 := t.setActiveLayer active1
      if result then
        match t1.addLayer with
        | none => none
        | some (t2, cameraTarget) =>
          let t3 : Tower := { t2 with score := t2.score + 1 }
          some (t3, [Event.cameraSync cameraTarget, Event.scoreUpdate t3.score])
      else
        some (t1, [Event.finish])

/-- Method `Tower.reset`; the tower is always built with an `onScoreUpdate`
callback, so the guarded call is made. -/
def Tower.reset (t : Tower) : Tower × List Event :=
  let t1 : Tower := { t with direction := 1, score := 0 }
  let t2 : Tower := { t1 with layers := t1.layers.map LayerModel.clear }
  let t3 : Tower := Tower.addFirstLayer { t2 with layers := [] }
  (t3, [Event.scoreUpdate t3.score])

/-- Tower states reachable from construction by `tick` with a non-negative
`deltaTime`, `place` and `reset` (calls that throw leave no new state). -/
inductive Reachable : Tower → Prop where
  | init : Reachable Tower.new
  | tick {t t1 : Tower} (delta : ℚ) : Reachable t → 0 ≤ delta →
      t.tick delta = some t1 → Reachable t1
  | place {t t1 : Tower} {events : List Event} : Reachable t →
      t.place = some (t1, events) → Reachable t1
  | reset {t : Tower} : Reachable t → Reachable t.reset.1

/-! ## Geometry vocabulary used by the statements -/

/-- Size of a block along an axis: `width` for `x`, `depth` for `z`. -/
def BlockModel.size (b : BlockModel) : Axis → ℚ
  | Axis.x => b.width
  | Axis.z => b.depth

/-- The other horizontal axis. -/
def Axis.other : Axis → Axis
  | Axis.x => Axis.z
  | Axis.z => Axis.x

/-- Lower edge of a block along an axis: centre minus half the size. -/
def BlockModel.lo (b : BlockModel) (a : Axis) : ℚ := b.position.get a - b.size a / 2

/-- Upper edge of a block along an axis: centre plus half the size. -/
def BlockModel.hi (b : BlockModel) (a : Axis) : ℚ := b.position.get a + b.size a / 2

/-! ## Game -/

/-- The `Game` controller: its tower, the timer value `_prevTimer`, the flags
`_isGameOver` and `_isGameActive`, and the text of the score element.  The
stage, the overlays and the buttons are DOM and rendering collaborators and are
left out. -/
structure Game where
  tower : Tower
  prevTimer : ℚ
  isGameOver : Bool
  isGameActive : Bool
  scoreText : ℤ
deriving DecidableEq, Repr

/-- Method `updateScore`. -/
def Game.updateScore (g : Game) (score : ℤ) : Game :=
  { g with scoreText := score }

/-- Method `end` of the source (`end` is a reserved word here). -/
def Game.endGame (g : Game) : Game :=
  { g with isGameOver := true }

/-- The callbacks the game hands to its tower: `onFinish` is `end`,
`onScoreUpdate` is `updateScore`; the camera is not part of the game state. -/
def Game.handle (g : Game) : Event → Game
  | Event.scoreUpdate score => g.updateScore score
  | Event.finish => g.endGame
  | Event.cameraSync _ => g

/-- The callbacks run for the calls a tower operation made, in call order. -/
def Game.handleAll (g : Game) (events : List Event) : Game :=
  events.foldl Game.handle g

/-- The `Game` constructor with `_init`: the first `tick` finds the game
inactive and the clock at `0`, and `updateScore(0)` sets the score text. -/
def Game.new : Game :=
  { tower := Tower.new
    prevTimer := 0
    isGameOver := false
    isGameActive := false
    scoreText := 0 }

/-- The click handler of the canvas (the place action): the new game and the
collaborator calls the tower made; `none` when `tower.place()` throws. -/
def Game.click (g : Game) : Option (Game × List Event) :=
  if !g.isGameActive || g.isGameOver then
    some (g, [])
  else
    match g.tower.place with
    | none => none
    | some (t1, events) => some (({ g with tower := t1 }).handleAll events, events)

/-- Method `startGame`. -/
def Game.startGame (g : Game) : Game × List Event :=
  let g1 : Game := { g with isGameActive := true }
  let r := g1.tower.reset
  (({ g1 with tower := r.1 }).handleAll r.2, r.2)

/-- Method `tick` of the game, for the clock reading `elapsedTime`; `none`
when `tower.tick` throws. -/
def Game.tick (g : Game) (elapsedTime : ℚ) : Option Game :=
  let delta := elapsedTime - g.prevTimer
  let g1 : Game := { g with prevTimer := elapsedTime }
  if g1.isGameActive then
    (g1.tower.tick delta).map fun t1 => { g1 with tower := t1 }
  else
    some g1

/-- Method `restart`. -/
def Game.restart (g : Game) : Game × List Event :=
  let r := g.tower.reset
  let g1 := ({ g with tower := r.1 }).handleAll r.2
  let g2 := g1.updateScore 0
  ({ g2 with isGameOver := false, isGameActive := true }, r.2)

/-- Game states reachable from construction by the start, place and restart
actions and by frames whose clock reading does not go backwards (actions that
throw leave no new state). -/
inductive GameReachable : Game → Prop where
  | init : GameReachable Game.new
  | start {g : Game} : GameReachable g → GameReachable g.startGame.1
  | click {g g1 : Game} {events : List Event} : GameReachable g →
      g.click = some (g1, events) → GameReachable g1
  | restart {g : Game} : GameReachable g → GameReachable g.restart.1
  | frame {g g1 : Game} (elapsedTime : ℚ) : GameReachable g →
      g.prevTimer ≤ elapsedTime → g.tick elapsedTime = some g1 → GameReachable g1

/-! ## IEEE double arithmetic

JavaScript numbers are binary64 values.  `roundDouble` sends a rational to the
nearest binary64 value, ties to even, with gradual underflow; overflow to
`Infinity` and `NaN` are not modelled (every magnitude met below is far from
`2^1024`).  A JavaScript operation `a + b`, `a - b`, `a * b`, `a / b` is the
exact result rounded by `roundDouble`; comparisons and `Math.abs` are exact. -/

/-- The power `2^e` for an integer exponent. -/
def pow2 (e : ℤ) : ℚ :=
  if 0 ≤ e then ((2 ^ e.toNat : ℕ) : ℚ) else 1 / ((2 ^ (-e).toNat : ℕ) : ℚ)

/-- Binary logarithm of a natural number, rounded down (`0` for `0`), by
repeated halving; the first argument bounds the number of halvings. -/
def log2Fuel : ℕ → ℕ → ℕ
  | 0, _ => 0
  | fuel + 1, n => if n < 2 then 0 else log2Fuel fuel (n / 2) + 1

/-- The integer `e` with `2^e ≤ |q| < 2^(e+1)`, for `q ≠ 0`. -/
def ilog2 (q : ℚ) : ℤ :=
  let e0 : ℤ := (log2Fuel q.num.natAbs q.num.natAbs : ℤ) - (log2Fuel q.den q.den : ℤ)
  if pow2 e0 ≤ |q| then e0 else e0 - 1

/-- Round a rational to the nearest integer, ties to the even one. -/
def roundHalfEven (s : ℚ) : ℤ :=
  let f := Rat.floor s
  let r := s - f
  if r < 1 / 2 then f else if 1 / 2 < r then f + 1 else if f % 2 = 0 then f else f + 1

/-- Round a rational to the nearest binary64 value: 53 significant bits, the
exponent not below `-1022`, ties to even. -/
def roundDouble (q : ℚ) : ℚ :=
  if q = 0 then 0 else
    let e := max (ilog2 q) (-1022)
    let quantum := pow2 (e - 52)
    (roundHalfEven (q / quantum) : ℚ) * quantum

/-- JavaScript `a + b`. -/
def dadd (a b : ℚ) : ℚ := roundDouble (a + b)

/-- JavaScript `a - b`. -/
def dsub (a b : ℚ) : ℚ := roundDouble (a - b)

/-- JavaScript `a * b`. -/
def dmul (a b : ℚ) : ℚ := roundDouble (a * b)

/-- JavaScript `a / b`. -/
def ddiv (a b : ℚ) : ℚ := roundDouble (a / b)

/-! ## The cut, the tick and the place as evaluated in doubles

The functions below are the functions of the same name without the suffix `D`,
with every arithmetic operation of the source rounded to binary64. -/

/-- The overlap computed in the first statement of `cut`, in doubles. -/
def cutOverlapD (layer : LayerModel) (mb prevPlacedBlock : BlockModel) : ℚ :=
  if layer.isAxisX
  then dsub mb.width |dsub mb.position.x prevPlacedBlock.position.x|
  else dsub mb.depth |dsub mb.position.z prevPlacedBlock.position.z|

/-- Function `calcFallingPosition`, in doubles. -/
def calcFallingPositionD (layer : LayerModel) (axisPosition : ℚ) : ℚ :=
  let shift := dadd axisPosition (ddiv layer.overlap 2)
  if layer.isCuttingBehind then dsub shift layer.overlap else shift

/-- Function `getFallingBlockProps`, in doubles. -/
def getFallingBlockPropsD (layer : LayerModel) (mb : BlockModel) : BlockProps :=
  let x := if layer.isAxisX then calcFallingPositionD layer mb.position.x else mb.position.x
  let z := if layer.isAxisZ then calcFallingPositionD layer mb.position.z else mb.position.z
  { width := if layer.isAxisX then dsub mb.width layer.overlap else mb.width
    depth := if layer.isAxisZ then dsub mb.depth layer.overlap else mb.depth
    initPosition := some ⟨x, mb.position.y, z⟩ }

/-- The `FallingBlockModel` constructor, in doubles. -/
def FallingBlockModel.newD (layer : LayerModel) (mb : BlockModel)
    (isLastFallingBlock : Bool) : BlockModel :=
  let props := if isLastFallingBlock then getLastBlockProps mb
    else getFallingBlockPropsD layer mb
  BlockModel.new { props with color := some Color.fallingBlock }

/-- Method `FallingBlockModel.tick`, in doubles. -/
def FallingBlockModel.tickD (b : BlockModel) (delta : ℚ) : BlockModel :=
  { b with position := { b.position with y := dsub b.position.y (dmul delta FALL_RATE) } }

/-- Function `calcPlacedBlockShift`, in doubles. -/
def calcPlacedBlockShiftD (sideSize : ℚ) (layer : LayerModel) : ℚ :=
  let shift := ddiv (dsub sideSize layer.overlap) 2
  let sign : ℚ := if layer.isCuttingBehind then 1 else -1
  dmul shift sign

/-- Function `calcPlacedBlockProps`, in doubles. -/
def calcPlacedBlockPropsD (layer : LayerModel) (mb : BlockModel) : BlockProps :=
  let width := if layer.isAxisX then layer.overlap else mb.width
  let depth := if layer.isAxisZ then layer.overlap else mb.depth
  let x := if layer.isAxisX
    then dadd mb.position.x (calcPlacedBlockShiftD mb.width layer)
    else mb.position.x
  let z := if layer.isAxisZ
    then dadd mb.position.z (calcPlacedBlockShiftD mb.depth layer)
    else mb.position.z
  { width := width
    depth := depth
    initPosition := some ⟨x, mb.position.y, z⟩
    color := some Color.placedBlock }

/-- The `PlacedBlockModel` constructor, in doubles. -/
def PlacedBlockModel.newD (layer : LayerModel) (mb : BlockModel) : BlockModel :=
  BlockModel.new (calcPlacedBlockPropsD layer mb)

/-- Method `_createPlacedBlock`, in doubles. -/
def LayerModel.createPlacedBlockD (layer : LayerModel) : Option LayerModel :=
  match layer.movingBlock with
  | none => none
  | some mb => some { layer with placedBlock := some (PlacedBlockModel.newD layer mb) }

/-- Method `_createFallingBlock`, in doubles. -/
def LayerModel.createFallingBlockD (layer : LayerModel) (isLastFallingBlock : Bool) :
    Option LayerModel :=
  match layer.movingBlock with
  | none => none
  | some mb =>
    some { layer with
      fallingBlock := some (FallingBlockModel.newD layer mb isLastFallingBlock) }

/-- Method `LayerModel.cut`, in doubles. -/
def LayerModel.cutD (layer : LayerModel) (prevPlacedBlock : BlockModel) :
    Option (LayerModel × Bool) :=
  match layer.movingBlock with
  | none => none
  | some mb =>
    let l1 : LayerModel := { layer with overlap := cutOverlapD layer mb prevPlacedBlock }
    if l1.overlap ≤ 0 then
      (l1.createFallingBlockD true).map fun l2 => (l2.removeMovingBlock, false)
    else
      let l2 : LayerModel := { l1 with
        isCuttingBehind :=
          decide (dsub (mb.position.get l1.axis) (prevPlacedBlock.position.get l1.axis) < 0) }
      (l2.createPlacedBlockD.bind fun l3 => l3.createFallingBlockD false).map
        fun l4 => (l4.removeMovingBlock, true)

/-- The statement `layer.fallingBlock?.tick(delta)`, in doubles. -/
def LayerModel.tickFallingD (delta : ℚ) (layer : LayerModel) : LayerModel :=
  { layer with fallingBlock := layer.fallingBlock.map fun b => FallingBlockModel.tickD b delta }

/-- Method `Tower.tick`, in doubles. -/
def Tower.tickD (t : Tower) (delta : ℚ) : Option Tower :=
  let t1 : Tower := { t with layers := t.layers.map (LayerModel.tickFallingD delta) }
  match t1.activeLayer with
  | none => none
  | some active =>
    match active.movingBlock with
    | none => some t1
    | some mb =>
      let activeAxisPosition := mb.position.get active.axis
      let s1 : BlockModel × Tower :=
        if activeAxisPosition > MOVING_RANGE
        then ({ mb with position := mb.position.set active.axis MOVING_RANGE },
              t1.reverseDirection)
        else (mb, t1)
      let s2 : BlockModel × Tower :=
        if activeAxisPosition < -MOVING_RANGE
        then ({ s1.1 with position := s1.1.position.set active.axis (-MOVING_RANGE) },
              s1.2.reverseDirection)
        else s1
      let mb3 : BlockModel := { s2.1 with
        position := s2.1.position.set active.axis
          (dadd (s2.1.position.get active.axis)
            (dmul (dmul delta SPEED_FACTOR) (s2.2.direction : ℚ))) }
      some (s2.2.setActiveLayer { active with movingBlock := some mb3 })

/-- Method `Tower.place`, in doubles; `_addLayer` multiplies two small
integers, which is exact, so `Tower.addLayer` serves as it is. -/
def Tower.placeD (t : Tower) : Option (Tower × List Event) :=
  match t.activeLayer with
  | none => none
  | some active =>
    match active.cutD t.lastPlacedBlock with
    | none => none
    | some (active1, result) =>
      let t1 := t.setActiveLayer active1
      if result then
        match t1.addLayer with
        | none => none
        | some (t2, cameraTarget) =>
          let t3 : Tower := { t2 with score := t2.score + 1 }
          some (t3, [Event.cameraSync cameraTarget, Event.scoreUpdate t3.score])
      else
        some (t1, [Event.finish])

/-! ## Scenarios and closed forms used by the statements -/

/-- A coordinate `t` lies in the closed extent of block `b` along axis `a`. -/
def BlockModel.covers (b : BlockModel) (a : Axis) (t : ℚ) : Prop := b.lo a ≤ t ∧ t ≤ b.hi a

instance (b : BlockModel) (a : Axis) (t : ℚ) : Decidable (b.covers a t) := by
  unfold BlockModel.covers
  infer_instance

/-- Scenario B: a 10 x 10 moving block at `x = 5` on a layer sliding along `x`. -/
def scenarioB : LayerModel :=
  { axis := Axis.x
    movingBlock := some
      { width := 10, height := 3, depth := 10, position := ⟨5, 3, 0⟩, color := Color.movingBlock }
    placedBlock := none
    fallingBlock := none
    overlap := 0
    isCuttingBehind := false }

/-- The layer as `cut` has updated it when it reaches `_createPlacedBlock`:
`overlap` and `isCuttingBehind` are set. -/
def hitLayer (layer : LayerModel) (mb ref : BlockModel) : LayerModel :=
  { layer with
    overlap := cutOverlap layer mb ref
    isCuttingBehind := decide (mb.position.get layer.axis - ref.position.get layer.axis < 0) }

/-- The placed block a successful `cut` creates. -/
def hitPlaced (layer : LayerModel) (mb ref : BlockModel) : BlockModel :=
  PlacedBlockModel.new (hitLayer layer mb ref) mb

/-- The falling block a successful `cut` creates. -/
def hitFalling (layer : LayerModel) (mb ref : BlockModel) : BlockModel :=
  FallingBlockModel.new
    { hitLayer layer mb ref with placedBlock := some (hitPlaced layer mb ref) } mb false

/-- The layer a successful `cut` leaves behind. -/
def hitResult (layer : LayerModel) (mb ref : BlockModel) : LayerModel :=
  { hitLayer layer mb ref with
    placedBlock := some (hitPlaced layer mb ref)
    fallingBlock := some (hitFalling layer mb ref)
    movingBlock := none }

/-- The layer a failed `cut` (a miss) leaves behind. -/
def missResult (layer : LayerModel) (mb ref : BlockModel) : LayerModel :=
  { layer with
    overlap := cutOverlap layer mb ref
    fallingBlock := some (BlockModel.new
      { getLastBlockProps mb with color := some Color.fallingBlock })
    movingBlock := none }

/-- The layer `_addLayer` pushes on top of a layer `active` sitting at index
`index` whose placed block is `placed`. -/
def nextLayer (active : LayerModel) (placed : BlockModel) (index : ℕ) : LayerModel :=
  LayerModel.new (if active.isAxisX then Axis.z else Axis.x)
    placed.width placed.depth
    placed.position.x
    ((((index : ℤ) + 2 : ℤ) : ℚ) * BASE_BLOCK_SIZE_height)
    placed.position.z

/-- A moving block that misses entirely: 10 x 10 at `x = -15` over the base. -/
def scenarioMiss : LayerModel :=
  { axis := Axis.x
    movingBlock := some
      { width := 10, height := 3, depth := 10, position := ⟨-15, 3, 0⟩, color := Color.movingBlock }
    placedBlock := none
    fallingBlock := none
    overlap := 0
    isCuttingBehind := false }

/-- Perfect alignment: a 10 x 10 moving block at `z = 0` on a layer sliding
along `z`. -/
def scenarioAligned : LayerModel :=
  { axis := Axis.z
    movingBlock := some
      { width := 10, height := 3, depth := 10, position := ⟨0, 3, 0⟩, color := Color.movingBlock }
    placedBlock := none
    fallingBlock := none
    overlap := 0
    isCuttingBehind := false }

/-- Position of the moving block along the axis after `tick`, as a function
of the position `p` before, the direction `d` and `delta`. -/
def tickPosition (p : ℚ) (d : ℤ) (delta : ℚ) : ℚ :=
  if MOVING_RANGE < p then MOVING_RANGE + delta * SPEED_FACTOR * ((-d : ℤ) : ℚ)
  else if p < -MOVING_RANGE then -MOVING_RANGE + delta * SPEED_FACTOR * ((-d : ℤ) : ℚ)
  else p + delta * SPEED_FACTOR * (d : ℚ)

/-- Direction after `tick`. -/
def tickDirection (p : ℚ) (d : ℤ) : ℤ :=
  if MOVING_RANGE < p ∨ p < -MOVING_RANGE then -d else d

/-! ## Tower invariant -/

/-- Axis expected at layer index `i`: `x` for even `i`, `z` for odd `i`. -/
def axisAt (i : ℕ) : Axis := if i % 2 = 0 then Axis.x else Axis.z

/-- The block directly beneath the layer at index `i`: the placed block of
layer `i - 1`, or the base block (`prevLayer?.placedBlock ?? baseBlock` read
at index `i`). -/
def blockBelow (base : BlockModel) (layers : List LayerModel) : ℕ → BlockModel
  | 0 => base
  | j + 1 => (layers[j]?.bind fun l => l.placedBlock).getD base

/-- The block beneath the next layer, for a stack listed top-first. -/
def belowOf (base : BlockModel) : List LayerModel → BlockModel
  | [] => base
  | l :: _ => l.placedBlock.getD base

/-- A well-formed placed block of layer `i` resting on `below`. -/
structure PlacedOK (below : BlockModel) (i : ℕ) (p : BlockModel) : Prop where
  y_eq : p.position.y = ((i : ℚ) + 1) * BASE_BLOCK_SIZE_height
  width_pos : 0 < p.width
  depth_pos : 0 < p.depth
  width_le : p.width ≤ below.width
  depth_le : p.depth ≤ below.depth

/-- A layer resolved by a successful cut. -/
structure ResolvedOK (below : BlockModel) (i : ℕ) (l : LayerModel) : Prop where
  axis_eq : l.axis = axisAt i
  moving : l.movingBlock = none
  falling : ∃ f, l.fallingBlock = some f
  placed : ∃ p, l.placedBlock = some p ∧ PlacedOK below i p

/-- A layer whose block is still sliding over `below`. -/
structure SlidingOK (below : BlockModel) (i : ℕ) (l : LayerModel) : Prop where
  axis_eq : l.axis = axisAt i
  placed : l.placedBlock = none
  falling : l.fallingBlock = none
  moving : ∃ m, l.movingBlock = some m ∧
    m.position.y = ((i : ℚ) + 1) * BASE_BLOCK_SIZE_height ∧
    m.width = below.width ∧ m.depth = below.depth ∧
    m.position.get l.axis.other = below.position.get l.axis.other

/-- A layer resolved by a miss. -/
structure MissedOK (i : ℕ) (l : LayerModel) : Prop where
  axis_eq : l.axis = axisAt i
  placed : l.placedBlock = none
  moving : l.movingBlock = none
  falling : ∃ f, l.fallingBlock = some f

/-- Well-formedness of the layers below the active one, listed top-first. -/
def StackOK (base : BlockModel) : List LayerModel → Prop
  | [] => True
  | l :: rest => ResolvedOK (belowOf base rest) rest.length l ∧ StackOK base rest

/-- The tower invariant, for a tower with active layer `top` over the layers
`rest` (listed top-first). -/
structure TowerInvAt (t : Tower) (top : LayerModel) (rest : List LayerModel) : Prop where
  layers_eq : t.layers = rest.reverse ++ [top]
  base_eq : t.baseBlock = baseBlockInit
  dir : t.direction = 1 ∨ t.direction = -1
  score_eq : t.score = (rest.length : ℤ)
  stack : StackOK t.baseBlock rest
  top_ok : SlidingOK (belowOf t.baseBlock rest) rest.length top ∨ MissedOK rest.length top
  range : ∀ m, top.movingBlock = some m →
    (MOVING_RANGE < m.position.get top.axis → t.direction = 1) ∧
    (m.position.get top.axis < -MOVING_RANGE → t.direction = -1)

/-- The tower invariant. -/
def TowerInv (t : Tower) : Prop := ∃ top rest, TowerInvAt t top rest

/-- Per-index reading of the invariant for the layer at index `i` of `n`
layers, resting on `below`. -/
structure LayerOK (n : ℕ) (below : BlockModel) (i : ℕ) (l : LayerModel) : Prop where
  axis_eq : l.axis = axisAt i
  moving : ∀ m, l.movingBlock = some m →
    i + 1 = n ∧ l.placedBlock = none ∧ l.fallingBlock = none ∧
    m.position.y = ((i : ℚ) + 1) * BASE_BLOCK_SIZE_height ∧
    m.width = below.width ∧ m.depth = below.depth ∧
    m.position.get l.axis.other = below.position.get l.axis.other
  placed : ∀ p, l.placedBlock = some p → l.movingBlock = none ∧ PlacedOK below i p
  lower : i + 1 < n → ∃ p, l.placedBlock = some p
  resolved : l.movingBlock = none → ∃ f, l.fallingBlock = some f

/-! ## A concrete run: one tick of one second, then a place -/

/-- The fresh tower after `tick 1`: the moving block has slid from `x = -15`
to `x = -5`. -/
def towerAfterTick : Tower :=
  { layers :=
      [{ axis := Axis.x
         movingBlock := some
           { width := 10, height := 3, depth := 10, position := ⟨-5, 3, 0⟩,
             color := Color.movingBlock }
         placedBlock := none
         fallingBlock := none
         overlap := 0
         isCuttingBehind := false }]
    direction := 1
    score := 0
    baseBlock := baseBlockInit }

/-- The first layer of `towerAfterTick` once it has been cut by `place`:
overlap 5, cut behind. -/
def layerCut : LayerModel :=
  { axis := Axis.x
    movingBlock := none
    placedBlock := some
      { width := 5, height := 3, depth := 10, position := ⟨-5 / 2, 3, 0⟩,
        color := Color.placedBlock }
    fallingBlock := some
      { width := 5, height := 3, depth := 10, position := ⟨-15 / 2, 3, 0⟩,
        color := Color.fallingBlock }
    overlap := 5
    isCuttingBehind := true }

/-- The second layer, pushed by that `place`: it slides along `z`. -/
def layerNext : LayerModel :=
  { axis := Axis.z
    movingBlock := some
      { width := 5, height := 3, depth := 10, position := ⟨-5 / 2, 6, -15⟩,
        color := Color.movingBlock }
    placedBlock := none
    fallingBlock := none
    overlap := 0
    isCuttingBehind := false }

/-- The tower `towerAfterTick` after `place`. -/
def towerAfterPlace : Tower :=
  { layers := [layerCut, layerNext]
    direction := 1
    score := 1
    baseBlock := baseBlockInit }

/-! ## A perfectly aligned run: a tick of 1.5 seconds, then a place -/

/-- The fresh tower after `tick (3/2)`: the moving block is centred over the
base, at `x = 0`. -/
def towerCentred : Tower :=
  { layers :=
      [{ axis := Axis.x
         movingBlock := some
           { width := 10, height := 3, depth := 10, position := ⟨0, 3, 0⟩,
             color := Color.movingBlock }
         placedBlock := none
         fallingBlock := none
         overlap := 0
         isCuttingBehind := false }]
    direction := 1
    score := 0
    baseBlock := baseBlockInit }

/-- The first layer of `towerCentred` once `place` has cut it: the whole block
is kept and the falling block has width `0`. -/
def layerWhole : LayerModel :=
  { axis := Axis.x
    movingBlock := none
    placedBlock := some
      { width := 10, height := 3, depth := 10, position := ⟨0, 3, 0⟩,
        color := Color.placedBlock }
    fallingBlock := some
      { width := 0, height := 3, depth := 10, position := ⟨5, 3, 0⟩,
        color := Color.fallingBlock }
    overlap := 10
    isCuttingBehind := false }

/-- The tower `towerCentred` after `place`. -/
def towerCentredPlaced : Tower :=
  { layers :=
      [layerWhole,
       { axis := Axis.z
         movingBlock := some
           { width := 10, height := 3, depth := 10, position := ⟨0, 6, -15⟩,
             color := Color.movingBlock }
         placedBlock := none
         fallingBlock := none
         overlap := 0
         isCuttingBehind := false }]
    direction := 1
    score := 1
    baseBlock := baseBlockInit }

/-- Every falling block of the tower has non-negative width and depth. -/
def FallingOK (t : Tower) : Prop :=
  ∀ l ∈ t.layers, ∀ f, l.fallingBlock = some f → 0 ≤ f.width ∧ 0 ≤ f.depth

/-! ## A lost game: start, then place at once -/

/-- The first layer after a place made while the block is still at `x = -15`:
the whole block falls. -/
def layerMissed : LayerModel :=
  { axis := Axis.x
    movingBlock := none
    placedBlock := none
    fallingBlock := some
      { width := 10, height := 3, depth := 10, position := ⟨-15, 3, 0⟩,
        color := Color.fallingBlock }
    overlap := -5
    isCuttingBehind := false }

/-- The game after `startGame` and a place action at once: game over. -/
def gameLost : Game :=
  { tower :=
      { layers := [layerMissed]
        direction := 1
        score := 0
        baseBlock := baseBlockInit }
    prevTimer := 0
    isGameOver := true
    isGameActive := true
    scoreText := 0 }

/-! ## A run in doubles: tick 1, tick 0.19, place -/

/-- The binary64 value of the literal `0.19`. -/
def delta019 : ℚ := 3422735716801577 / 18014398509481984

/-- The moving block of `towerAfterTick` after a further `tick(0.19)` in
doubles: it sits at the binary64 value printed as `-3.1`. -/
def blockSlid : BlockModel :=
  { width := 10, height := 3, depth := 10
    position := ⟨-6980579422424269 / 2251799813685248, 3, 0⟩
    color := Color.movingBlock }

/-- The active layer holding `blockSlid`. -/
def layerSlid : LayerModel :=
  { axis := Axis.x
    movingBlock := some blockSlid
    placedBlock := none
    fallingBlock := none
    overlap := 0
    isCuttingBehind := false }

/-- The tower `towerAfterTick` after `tick(0.19)` in doubles. -/
def towerSlid : Tower :=
  { layers := [layerSlid]
    direction := 1
    score := 0
    baseBlock := baseBlockInit }

/-- The placed block `cut` builds from `layerSlid` over the base block in
doubles: width `6.9`, centre `-1.5500000000000003`. -/
def placedSlid : BlockModel :=
  { width := 3884354678607053 / 562949953421312, height := 3, depth := 10
    position := ⟨-3490289711212135 / 2251799813685248, 3, 0⟩
    color := Color.placedBlock }

/-- The falling block of the same cut: width `3.0999999999999996`, centre
`-6.550000000000001`. -/
def fallingSlid : BlockModel :=
  { width := 1745144855606067 / 562949953421312, height := 3, depth := 10
    position := ⟨-1843661097454797 / 281474976710656, 3, 0⟩
    color := Color.fallingBlock }

/-- The layer `layerSlid` after that cut. -/
def layerSlidCut : LayerModel :=
  { axis := Axis.x
    movingBlock := none
    placedBlock := some placedSlid
    fallingBlock := some fallingSlid
    overlap := 3884354678607053 / 562949953421312
    isCuttingBehind := true }

/-- The tower `towerSlid` after `place` in doubles. -/
def towerSlidPlaced : Tower :=
  { layers :=
      [layerSlidCut,
       { axis := Axis.z
         movingBlock := some
           { width := 3884354678607053 / 562949953421312, height := 3, depth := 10
             position := ⟨-3490289711212135 / 2251799813685248, 6, -15⟩
             color := Color.movingBlock }
         placedBlock := none
         fallingBlock := none
         overlap := 0
         isCuttingBehind := false }]
    direction := 1
    score := 1
    baseBlock := baseBlockInit }

/-! ## The cut algorithm -/

theorem cut_miss_eq (layer : LayerModel) (mb ref : BlockModel)
    (hmb : layer.movingBlock = some mb) (ho : cutOverlap layer mb ref ≤ 0) :
    layer.cut ref = some (missResult layer mb ref, false) := by
  simp [LayerModel.cut, hmb, ho, LayerModel.createFallingBlock, LayerModel.removeMovingBlock,
    FallingBlockModel.new, missResult]

theorem cut_hit_eq (layer : LayerModel) (mb ref : BlockModel)
    (hmb : layer.movingBlock = some mb) (ho : 0 < cutOverlap layer mb ref) :
    layer.cut ref = some (hitResult layer mb ref, true) := by
  simp [LayerModel.cut, hmb, not_le.mpr ho, LayerModel.createFallingBlock,
    LayerModel.removeMovingBlock, LayerModel.createPlacedBlock, hitLayer, hitPlaced, hitFalling,
    hitResult]

theorem cutOverlap_eq (layer : LayerModel) (mb ref : BlockModel) :
    cutOverlap layer mb ref
      = mb.size layer.axis - |mb.position.get layer.axis - ref.position.get layer.axis| := by
  cases h : layer.axis <;> simp [cutOverlap, LayerModel.isAxisX, h, BlockModel.size, Vector3.get]

/-- Every call of `cut` on a layer with a moving block returns, and returns
`true` exactly when the overlap is positive. -/
theorem cut_result (layer : LayerModel) (mb ref : BlockModel)
    (hmb : layer.movingBlock = some mb) :
    ∃ layer1, layer.cut ref = some (layer1, decide (0 < cutOverlap layer mb ref)) := by
  by_cases ho : 0 < cutOverlap layer mb ref
  · rw [cut_hit_eq layer mb ref hmb ho, decide_eq_true ho]
    exact ⟨_, rfl⟩
  · rw [cut_miss_eq layer mb ref hmb (not_lt.mp ho), decide_eq_false ho]
    exact ⟨_, rfl⟩

theorem cut_true_overlap (layer : LayerModel) (mb ref : BlockModel) (layer1 : LayerModel)
    (hmb : layer.movingBlock = some mb) (hcut : layer.cut ref = some (layer1, true)) :
    0 < cutOverlap layer mb ref := by
  obtain ⟨l, hl⟩ := cut_result layer mb ref hmb
  rw [hl] at hcut
  simpa using (congrArg (fun o => o.map Prod.snd) hcut)

/-- C1: whenever `cut` succeeds on a layer with moving block `mb`, the placed
and the falling block it creates have sizes along the active axis that add up
to exactly the moving block's size along that axis, and both keep the moving
block's size along the other axis. -/
theorem cut_sizes_add (layer layer1 : LayerModel) (mb ref : BlockModel)
    (hmb : layer.movingBlock = some mb) (hcut : layer.cut ref = some (layer1, true)) :
    ∃ placed falling, layer1.placedBlock = some placed ∧ layer1.fallingBlock = some falling ∧
      placed.size layer.axis + falling.size layer.axis = mb.size layer.axis ∧
      placed.size layer.axis.other = mb.size layer.axis.other ∧
      falling.size layer.axis.other = mb.size layer.axis.other := by
  have ho := cut_true_overlap layer mb ref layer1 hmb hcut
  rw [cut_hit_eq layer mb ref hmb ho] at hcut
  simp only [Option.some.injEq, Prod.mk.injEq, and_true] at hcut
  subst hcut
  refine ⟨_, _, rfl, rfl, ?_⟩
  cases h : layer.axis <;>
    simp [h, hitPlaced, hitFalling, hitLayer, BlockModel.size, Axis.other, PlacedBlockModel.new,
      FallingBlockModel.new, calcPlacedBlockProps, getFallingBlockProps, BlockModel.new,
      LayerModel.isAxisX, LayerModel.isAxisZ]

theorem cut_sizes_add_witness :
    scenarioB.movingBlock = some ⟨10, 3, 10, ⟨5, 3, 0⟩, Color.movingBlock⟩ ∧
    ∃ layer1, scenarioB.cut baseBlockInit = some (layer1, true) ∧
    ∃ placed falling, layer1.placedBlock = some placed ∧ layer1.fallingBlock = some falling ∧
      placed.size scenarioB.axis + falling.size scenarioB.axis = 10 := by
  have hmb : scenarioB.movingBlock = some ⟨10, 3, 10, ⟨5, 3, 0⟩, Color.movingBlock⟩ := rfl
  obtain ⟨l1, h1⟩ := cut_result scenarioB _ baseBlockInit hmb
  have ho : (0 : ℚ) < cutOverlap scenarioB ⟨10, 3, 10, ⟨5, 3, 0⟩, Color.movingBlock⟩ baseBlockInit := by
    norm_num [cutOverlap, scenarioB, baseBlockInit, BlockModel.new, LayerModel.isAxisX]
  rw [decide_eq_true ho] at h1
  obtain ⟨p, f, hp, hf, hs, -, -⟩ := cut_sizes_add scenarioB l1 _ baseBlockInit hmb h1
  exact ⟨hmb, l1, h1, p, f, hp, hf, by simpa [BlockModel.size, scenarioB] using hs⟩

/-- C2: the overlap `cut` computes is the moving block's size along the axis
minus the absolute distance between the moving and the reference position
along the axis.  When it is `≤ 0`, `cut` returns `false`, leaves `placedBlock`
untouched (so it stays `null`), sets `movingBlock` to `null`, and creates a
falling block with the width, depth and position of the whole moving block.
`cut` returns `true` exactly when the overlap is `> 0`; overlap `0` is a
miss. -/
theorem cut_miss (layer : LayerModel) (mb ref : BlockModel)
    (hmb : layer.movingBlock = some mb) :
    cutOverlap layer mb ref
        = mb.size layer.axis - |mb.position.get layer.axis - ref.position.get layer.axis| ∧
    (cutOverlap layer mb ref ≤ 0 →
      ∃ layer1 falling, layer.cut ref = some (layer1, false) ∧
        layer1.placedBlock = layer.placedBlock ∧
        (layer.placedBlock = none → layer1.placedBlock = none) ∧
        layer1.movingBlock = none ∧
        layer1.fallingBlock = some falling ∧
        falling.width = mb.width ∧ falling.depth = mb.depth ∧
        falling.position = mb.position) ∧
    (∃ layer1 result, layer.cut ref = some (layer1, result) ∧
      (result = true ↔ 0 < cutOverlap layer mb ref)) ∧
    (cutOverlap layer mb ref = 0 → ∃ layer1, layer.cut ref = some (layer1, false)) := by
  refine ⟨cutOverlap_eq layer mb ref, ?_, ?_, ?_⟩
  · intro ho
    rw [cut_miss_eq layer mb ref hmb ho]
    refine ⟨_, _, rfl, rfl, ?_, rfl, rfl, ?_⟩
    · exact fun h => h
    · simp [BlockModel.new, getLastBlockProps]
  · obtain ⟨l1, h1⟩ := cut_result layer mb ref hmb
    exact ⟨l1, _, h1, by simp⟩
  · intro ho
    rw [cut_miss_eq layer mb ref hmb (le_of_eq ho)]
    exact ⟨_, rfl⟩

theorem cut_miss_witness :
    scenarioMiss.movingBlock = some ⟨10, 3, 10, ⟨-15, 3, 0⟩, Color.movingBlock⟩ ∧
    cutOverlap scenarioMiss ⟨10, 3, 10, ⟨-15, 3, 0⟩, Color.movingBlock⟩ baseBlockInit = -5 ∧
    ∃ layer1 falling, scenarioMiss.cut baseBlockInit = some (layer1, false) ∧
      layer1.placedBlock = none ∧ layer1.movingBlock = none ∧
      layer1.fallingBlock = some falling ∧
      falling.width = 10 ∧ falling.depth = 10 ∧ falling.position = ⟨-15, 3, 0⟩ := by
  have hmb : scenarioMiss.movingBlock = some ⟨10, 3, 10, ⟨-15, 3, 0⟩, Color.movingBlock⟩ := rfl
  have ho : cutOverlap scenarioMiss ⟨10, 3, 10, ⟨-15, 3, 0⟩, Color.movingBlock⟩ baseBlockInit
      = -5 := by
    norm_num [cutOverlap, scenarioMiss, baseBlockInit, BlockModel.new, LayerModel.isAxisX]
  obtain ⟨l1, f, h1, h2, -, h3, h4, h5, h6, h7⟩ :=
    (cut_miss scenarioMiss _ baseBlockInit hmb).2.1 (by rw [ho]; norm_num)
  exact ⟨hmb, ho, l1, f, h1, h2, h3, h4, h5, h6, h7⟩

/-- C5: for a moving block of positive width and depth whose position along
the active axis equals that of the reference block, the overlap is the block's
size along the axis, `cut` returns `true`, the placed block has the width,
depth and position of the moving block, and a falling block is created whose
size along the active axis is exactly `0`. -/
theorem cut_aligned (layer : LayerModel) (mb ref : BlockModel)
    (hmb : layer.movingBlock = some mb) (hw : 0 < mb.width) (hd : 0 < mb.depth)
    (halign : mb.position.get layer.axis = ref.position.get layer.axis) :
    cutOverlap layer mb ref = mb.size layer.axis ∧
    ∃ layer1 placed falling, layer.cut ref = some (layer1, true) ∧
      layer1.movingBlock = none ∧
      layer1.placedBlock = some placed ∧ layer1.fallingBlock = some falling ∧
      placed.width = mb.width ∧ placed.depth = mb.depth ∧ placed.position = mb.position ∧
      falling.size layer.axis = 0 := by
  have ho : cutOverlap layer mb ref = mb.size layer.axis := by
    rw [cutOverlap_eq, halign]; simp
  have hpos : 0 < cutOverlap layer mb ref := by
    rw [ho]; cases layer.axis <;> simpa [BlockModel.size]
  refine ⟨ho, ?_⟩
  rw [cut_hit_eq layer mb ref hmb hpos]
  refine ⟨_, _, _, rfl, rfl, rfl, rfl, ?_⟩
  simp only [hitPlaced, hitFalling, hitLayer, ho, halign]
  cases h : layer.axis <;>
    simp [h, hitPlaced, hitFalling, hitLayer, BlockModel.size, PlacedBlockModel.new,
      FallingBlockModel.new, calcPlacedBlockProps, getFallingBlockProps, BlockModel.new,
      LayerModel.isAxisX, LayerModel.isAxisZ, calcPlacedBlockShift]

theorem cut_aligned_witness :
    ∃ layer1 placed falling, scenarioAligned.cut baseBlockInit = some (layer1, true) ∧
      layer1.placedBlock = some placed ∧ layer1.fallingBlock = some falling ∧
      placed.width = 10 ∧ placed.depth = 10 ∧ placed.position = ⟨0, 3, 0⟩ ∧
      falling.depth = 0 := by
  obtain ⟨-, l1, p, f, h1, -, h2, h3, h4, h5, h6, h7⟩ :=
    cut_aligned scenarioAligned ⟨10, 3, 10, ⟨0, 3, 0⟩, Color.movingBlock⟩ baseBlockInit rfl
      (by norm_num) (by norm_num) (by simp [scenarioAligned, baseBlockInit, BlockModel.new, Vector3.get])
  exact ⟨l1, p, f, h1, h2, h3, h4, h5, h6, h7⟩

theorem hit_geometry (layer : LayerModel) (mb ref : BlockModel) :
    (hitPlaced layer mb ref).size layer.axis = cutOverlap layer mb ref ∧
    (hitFalling layer mb ref).size layer.axis = mb.size layer.axis - cutOverlap layer mb ref ∧
    (hitPlaced layer mb ref).position.get layer.axis =
      (if mb.position.get layer.axis < ref.position.get layer.axis
       then mb.position.get layer.axis + (mb.size layer.axis - cutOverlap layer mb ref) / 2
       else mb.position.get layer.axis - (mb.size layer.axis - cutOverlap layer mb ref) / 2) ∧
    (hitFalling layer mb ref).position.get layer.axis =
      (if mb.position.get layer.axis < ref.position.get layer.axis
       then mb.position.get layer.axis - cutOverlap layer mb ref / 2
       else mb.position.get layer.axis + cutOverlap layer mb ref / 2) := by
  cases h : layer.axis <;>
    by_cases hb : mb.position.get layer.axis < ref.position.get layer.axis <;>
    (rw [h] at hb; simp only [Vector3.get] at hb) <;>
    simp [hitPlaced, hitFalling, hitLayer, h, hb, BlockModel.size, PlacedBlockModel.new,
      FallingBlockModel.new, calcPlacedBlockProps, getFallingBlockProps, BlockModel.new,
      LayerModel.isAxisX, LayerModel.isAxisZ, calcPlacedBlockShift, calcFallingPosition,
      Vector3.get] <;>
    ring

theorem hit_other (layer : LayerModel) (mb ref : BlockModel) :
    (hitPlaced layer mb ref).size layer.axis.other = mb.size layer.axis.other ∧
    (hitFalling layer mb ref).size layer.axis.other = mb.size layer.axis.other ∧
    (hitPlaced layer mb ref).position.get layer.axis.other = mb.position.get layer.axis.other ∧
    (hitFalling layer mb ref).position.get layer.axis.other
      = mb.position.get layer.axis.other ∧
    (hitPlaced layer mb ref).position.y = mb.position.y ∧
    (hitFalling layer mb ref).position.y = mb.position.y := by
  cases h : layer.axis <;>
    simp [hitPlaced, hitFalling, hitLayer, h, BlockModel.size, PlacedBlockModel.new,
      FallingBlockModel.new, calcPlacedBlockProps, getFallingBlockProps, BlockModel.new,
      LayerModel.isAxisX, LayerModel.isAxisZ, Vector3.get, Axis.other]

/-- C3 (amended): with the arithmetic of `cut` carried out exactly, after a
successful `cut` the placed and the falling block tile the moving block along
the active axis: a coordinate lies in the placed or the falling extent exactly
when it lies in the moving block's extent, the two extents meet in exactly one
boundary coordinate, and the falling block is on the low side when the cut is
behind (moving position below the reference position) and on the high side
otherwise.  Scenario B: width 10 at `x = 5` over a reference at `x = 0` gives
overlap 5, cut side ahead, placed width 5 at `x = 5/2` and falling width 5 at
`x = 15/2`, and the cut evaluated in doubles gives the very same layer. -/
theorem cut_tiles :
    (∀ (layer layer1 : LayerModel) (mb ref : BlockModel),
      layer.movingBlock = some mb → layer.cut ref = some (layer1, true) →
      ∃ placed falling, layer1.placedBlock = some placed ∧ layer1.fallingBlock = some falling ∧
        (layer1.isCuttingBehind = true ↔
          mb.position.get layer.axis < ref.position.get layer.axis) ∧
        (∀ t, placed.covers layer.axis t ∨ falling.covers layer.axis t ↔
          mb.covers layer.axis t) ∧
        (layer1.isCuttingBehind = true →
          falling.lo layer.axis = mb.lo layer.axis ∧
          falling.hi layer.axis = placed.lo layer.axis ∧
          placed.hi layer.axis = mb.hi layer.axis ∧
          ∀ t, placed.covers layer.axis t ∧ falling.covers layer.axis t ↔
            t = placed.lo layer.axis) ∧
        (layer1.isCuttingBehind = false →
          placed.lo layer.axis = mb.lo layer.axis ∧
          placed.hi layer.axis = falling.lo layer.axis ∧
          falling.hi layer.axis = mb.hi layer.axis ∧
          ∀ t, placed.covers layer.axis t ∧ falling.covers layer.axis t ↔
            t = placed.hi layer.axis)) ∧
    (∃ layer1 placed falling, scenarioB.cut baseBlockInit = some (layer1, true) ∧
      layer1.overlap = 5 ∧ layer1.isCuttingBehind = false ∧
      layer1.placedBlock = some placed ∧ layer1.fallingBlock = some falling ∧
      placed.width = 5 ∧ placed.position.x = 5 / 2 ∧
      falling.width = 5 ∧ falling.position.x = 15 / 2) ∧
    scenarioB.cutD baseBlockInit = scenarioB.cut baseBlockInit := by
  refine ⟨?_, ?_, by decide!⟩
  · intro layer layer1 mb ref hmb hcut
    have ho := cut_true_overlap layer mb ref layer1 hmb hcut
    rw [cut_hit_eq layer mb ref hmb ho] at hcut
    simp only [Option.some.injEq, Prod.mk.injEq, and_true] at hcut
    subst hcut
    obtain ⟨h1, h2, h3, h4⟩ := hit_geometry layer mb ref
    have hle : cutOverlap layer mb ref ≤ mb.size layer.axis := by
      rw [cutOverlap_eq]
      linarith [abs_nonneg (mb.position.get layer.axis - ref.position.get layer.axis)]
    refine ⟨_, _, rfl, rfl, by simp [hitResult, hitLayer], ?_⟩
    simp only [BlockModel.covers, BlockModel.lo, BlockModel.hi, h1, h2, h3, h4, hitResult, hitLayer,
      decide_eq_true_eq, decide_eq_false_iff_not, sub_neg]
    by_cases hb : mb.position.get layer.axis < ref.position.get layer.axis
    · simp only [hb, if_true, true_implies, not_true_eq_false, false_implies, and_true]
      refine ⟨fun t => ⟨?_, ?_⟩, by ring, by ring, by ring, fun t => ⟨?_, ?_⟩⟩
      · rintro (⟨ha, hb⟩ | ⟨ha, hb⟩) <;> constructor <;> linarith
      · rintro ⟨ha, hb⟩
        by_cases hc : t ≤ mb.position.get layer.axis + mb.size layer.axis / 2
            - cutOverlap layer mb ref
        · right; constructor <;> linarith
        · left; constructor <;> linarith
      · rintro ⟨⟨ha, hb⟩, ⟨hc, hd⟩⟩; linarith
      · rintro rfl; refine ⟨⟨?_, ?_⟩, ?_, ?_⟩ <;> linarith
    · simp only [hb, if_false, true_implies, not_true_eq_false, false_implies, true_and,
        not_false_eq_true]
      refine ⟨fun t => ⟨?_, ?_⟩, by ring, by ring, by ring, fun t => ⟨?_, ?_⟩⟩
      · rintro (⟨ha, hb⟩ | ⟨ha, hb⟩) <;> constructor <;> linarith
      · rintro ⟨ha, hb⟩
        by_cases hc : t ≤ mb.position.get layer.axis - mb.size layer.axis / 2
            + cutOverlap layer mb ref
        · left; constructor <;> linarith
        · right; constructor <;> linarith
      · rintro ⟨⟨ha, hb⟩, ⟨hc, hd⟩⟩; linarith
      · rintro rfl; refine ⟨⟨?_, ?_⟩, ?_, ?_⟩ <;> linarith
  · have hmb : scenarioB.movingBlock = some ⟨10, 3, 10, ⟨5, 3, 0⟩, Color.movingBlock⟩ := rfl
    have ho : cutOverlap scenarioB ⟨10, 3, 10, ⟨5, 3, 0⟩, Color.movingBlock⟩ baseBlockInit = 5 := by
      norm_num [cutOverlap, scenarioB, baseBlockInit, BlockModel.new, LayerModel.isAxisX]
    rw [cut_hit_eq scenarioB _ baseBlockInit hmb (by rw [ho]; norm_num)]
    refine ⟨_, _, _, rfl, ho, ?_, rfl, rfl, ?_⟩
    · norm_num [hitResult, hitLayer, scenarioB, baseBlockInit, BlockModel.new, Vector3.get]
    · simp only [hitPlaced, hitFalling, hitLayer, ho]
      norm_num [scenarioB, baseBlockInit, BlockModel.new, Vector3.get, PlacedBlockModel.new,
        FallingBlockModel.new, calcPlacedBlockProps, getFallingBlockProps, LayerModel.isAxisX,
        LayerModel.isAxisZ, calcPlacedBlockShift, calcFallingPosition]

theorem activeLayerIndex_append (t : Tower) (init : List LayerModel) (a : LayerModel)
    (h : t.layers = init ++ [a]) : t.activeLayerIndex = (init.length : ℤ) := by
  simp [Tower.activeLayerIndex, h]

theorem activeLayer_append (t : Tower) (init : List LayerModel) (a : LayerModel)
    (h : t.layers = init ++ [a]) : t.activeLayer = some a := by
  simp [Tower.activeLayer, arrayGet, activeLayerIndex_append t init a h, h]

theorem activeLayer_some (t : Tower) (a : LayerModel) (h : t.activeLayer = some a) :
    ∃ init, t.layers = init ++ [a] := by
  rcases List.eq_nil_or_concat t.layers with hnil | ⟨init, b, hb⟩
  · simp [Tower.activeLayer, arrayGet, Tower.activeLayerIndex, hnil] at h
  · rw [List.concat_eq_append] at hb
    rw [activeLayer_append t init b hb] at h
    exact ⟨init, by rw [hb, Option.some.inj h]⟩

theorem setActiveLayer_append (t : Tower) (init : List LayerModel) (a b : LayerModel)
    (h : t.layers = init ++ [a]) : (t.setActiveLayer b).layers = init ++ [b] := by
  simp [Tower.setActiveLayer, activeLayerIndex_append t init a h, h]

theorem prevLayer_append (t : Tower) (init : List LayerModel) (a : LayerModel)
    (h : t.layers = init ++ [a]) : t.prevLayer = init.getLast? := by
  rcases List.eq_nil_or_concat init with hnil | ⟨init2, b, hb⟩
  · subst hnil
    simp [Tower.prevLayer, arrayGet, Tower.activeLayerIndex, h]
  · rw [List.concat_eq_append] at hb
    subst hb
    have hi : t.activeLayerIndex - 1 = (init2.length : ℤ) := by
      rw [activeLayerIndex_append t _ a h]
      simp
    simp [Tower.prevLayer, arrayGet, hi, h]
    rw [List.getElem_append_right (le_refl _)]
    simp

theorem activeLayer_map (t : Tower) (f : LayerModel → LayerModel) (a : LayerModel)
    (h : t.activeLayer = some a) :
    Tower.activeLayer { t with layers := t.layers.map f } = some (f a) := by
  obtain ⟨init, hi⟩ := activeLayer_some t a h
  exact activeLayer_append _ (init.map f) (f a) (by simp [hi])

theorem Vector3.get_set (v : Vector3) (a : Axis) (x : ℚ) : (v.set a x).get a = x := by
  cases a <;> rfl

theorem Vector3.set_set (v : Vector3) (a : Axis) (x y : ℚ) :
    (v.set a x).set a y = v.set a y := by
  cases a <;> rfl

theorem Vector3.get_other_set (v : Vector3) (a : Axis) (x : ℚ) :
    (v.set a x).get a.other = v.get a.other := by
  cases a <;> rfl

theorem Vector3.y_set (v : Vector3) (a : Axis) (x : ℚ) : (v.set a x).y = v.y := by
  cases a <;> rfl

theorem tick_eq (t : Tower) (init : List LayerModel) (active : LayerModel) (mb : BlockModel)
    (delta : ℚ) (hl : t.layers = init ++ [active]) (hmb : active.movingBlock = some mb) :
    t.tick delta = some
      { t with
        layers := init.map (LayerModel.tickFalling delta) ++
          [{ LayerModel.tickFalling delta active with
              movingBlock := some { mb with
                position := mb.position.set active.axis
                  (tickPosition (mb.position.get active.axis) t.direction delta) } }]
        direction := tickDirection (mb.position.get active.axis) t.direction } := by
  have hR : -MOVING_RANGE < MOVING_RANGE := by norm_num [MOVING_RANGE]
  have h1 : Tower.activeLayer { t with layers := t.layers.map (LayerModel.tickFalling delta) }
      = some (LayerModel.tickFalling delta active) :=
    activeLayer_map t _ active (activeLayer_append t init active hl)
  unfold Tower.tick
  simp only [h1]
  have h2 : (LayerModel.tickFalling delta active).movingBlock = some mb := by
    simp [LayerModel.tickFalling, hmb]
  have h3 : (LayerModel.tickFalling delta active).axis = active.axis := rfl
  simp only [h2, h3]
  by_cases hhi : MOVING_RANGE < mb.position.get active.axis
  · have hlo : ¬ mb.position.get active.axis < -MOVING_RANGE := by linarith
    simp [hhi, hlo, tickPosition, tickDirection, Tower.reverseDirection, Tower.setActiveLayer,
      Tower.activeLayerIndex, hl, Vector3.get_set, Vector3.set_set]
  · by_cases hlo : mb.position.get active.axis < -MOVING_RANGE
    · simp [hhi, hlo, tickPosition, tickDirection, Tower.reverseDirection, Tower.setActiveLayer,
        Tower.activeLayerIndex, hl, Vector3.get_set, Vector3.set_set]
    · simp [hhi, hlo, tickPosition, tickDirection, Tower.reverseDirection, Tower.setActiveLayer,
        Tower.activeLayerIndex, hl, Vector3.get_set, Vector3.set_set]

/-! ## Motion of the sliding block -/

theorem tick_idle_eq (t : Tower) (active : LayerModel) (delta : ℚ)
    (hact : t.activeLayer = some active) (hmb : active.movingBlock = none) :
    t.tick delta = some { t with layers := t.layers.map (LayerModel.tickFalling delta) } := by
  have h1 := activeLayer_map t (LayerModel.tickFalling delta) active hact
  unfold Tower.tick
  simp only [h1]
  have h2 : (LayerModel.tickFalling delta active).movingBlock = none := by
    simp [LayerModel.tickFalling, hmb]
  simp only [h2]

/-- C8: for a tower whose active layer has a moving block at position `p`
along the active axis and direction `d`, `Tower.tick` returns, keeps the
active layer's axis, and leaves: position `R + t*speed*(-d)` and direction
`-d` when `p > R`; position `-R + t*speed*(-d)` and direction `-d` when
`p < -R`; position `p + t*speed*d` and direction `d` otherwise (`R = 15`,
`speed = 10`).  The direction is reversed at most once, it is reversed exactly
when `p` is strictly outside `[-R, R]`, and a direction in `{+1, -1}` stays in
`{+1, -1}`. -/
theorem tick_motion (t : Tower) (active : LayerModel) (mb : BlockModel) (delta : ℚ)
    (hact : t.activeLayer = some active) (hmb : active.movingBlock = some mb) :
    MOVING_RANGE = 15 ∧ SPEED_FACTOR = 10 ∧
    ∃ t1 active1 mb1, t.tick delta = some t1 ∧ t1.activeLayer = some active1 ∧
      active1.axis = active.axis ∧ active1.movingBlock = some mb1 ∧
      (MOVING_RANGE < mb.position.get active.axis →
        mb1.position.get active.axis
          = MOVING_RANGE + delta * SPEED_FACTOR * (-(t.direction : ℚ)) ∧
        t1.direction = -t.direction) ∧
      (mb.position.get active.axis < -MOVING_RANGE →
        mb1.position.get active.axis
          = -MOVING_RANGE + delta * SPEED_FACTOR * (-(t.direction : ℚ)) ∧
        t1.direction = -t.direction) ∧
      (-MOVING_RANGE ≤ mb.position.get active.axis →
        mb.position.get active.axis ≤ MOVING_RANGE →
        mb1.position.get active.axis
          = mb.position.get active.axis + delta * SPEED_FACTOR * (t.direction : ℚ) ∧
        t1.direction = t.direction) ∧
      (t1.direction = t.direction ∨ t1.direction = -t.direction) ∧
      (t.direction = 1 ∨ t.direction = -1 →
        (t1.direction = 1 ∨ t1.direction = -1) ∧
        (t1.direction ≠ t.direction ↔
          (MOVING_RANGE < mb.position.get active.axis ∨
            mb.position.get active.axis < -MOVING_RANGE))) := by
  obtain ⟨init, hl⟩ := activeLayer_some t active hact
  have hR : -MOVING_RANGE < MOVING_RANGE := by norm_num [MOVING_RANGE]
  refine ⟨rfl, rfl, _, _, _, tick_eq t init active mb delta hl hmb,
    activeLayer_append _ _ _ rfl, rfl, rfl, ?_⟩
  simp only [Vector3.get_set, tickPosition, tickDirection]
  refine ⟨?_, ?_, ?_, ?_, ?_⟩
  · intro h
    simp [h]
  · intro h
    have h2 : ¬ MOVING_RANGE < mb.position.get active.axis := by linarith
    simp [h, h2]
  · intro h1 h2
    simp [not_lt.mpr h1, not_lt.mpr h2]
  · by_cases h : MOVING_RANGE < mb.position.get active.axis ∨
        mb.position.get active.axis < -MOVING_RANGE
    · simp [h]
    · simp [h]
  · intro hd
    by_cases h : MOVING_RANGE < mb.position.get active.axis ∨
        mb.position.get active.axis < -MOVING_RANGE
    · simp only [h, if_true, iff_true]
      rcases hd with hd | hd <;> rw [hd] <;> decide
    · simp only [h, if_false, iff_false, not_not]
      exact ⟨hd, trivial⟩

theorem tick_motion_witness :
    ∃ t1 active1 mb1, Tower.new.tick 4 = some t1 ∧ t1.activeLayer = some active1 ∧
      active1.movingBlock = some mb1 ∧ mb1.position.get Axis.x = -15 + 4 * 10 * 1 ∧
      t1.direction = 1 := by
  obtain ⟨-, -, t1, a1, mb1, h1, h2, -, h3, -, -, h4, -⟩ :=
    tick_motion Tower.new (LayerModel.new Axis.x 10 10 0 3 0)
      ⟨10, 3, 10, ⟨-15, 3, 0⟩, Color.movingBlock⟩ 4
      (activeLayer_append _ [] _ rfl)
      (by simp [LayerModel.new, BlockModel.new, initMovingBlockPosition, MOVING_RANGE,
        BASE_BLOCK_SIZE_height])
  have h5 := h4 (by norm_num [LayerModel.new, Vector3.get, MOVING_RANGE])
    (by norm_num [LayerModel.new, Vector3.get, MOVING_RANGE])
  refine ⟨t1, a1, mb1, h1, h2, h3, ?_, ?_⟩
  · have := h5.1
    simpa [LayerModel.new, Vector3.get, SPEED_FACTOR, Tower.new, Tower.addFirstLayer] using this
  · simpa [Tower.new, Tower.addFirstLayer] using h5.2

/-- C7 (as stated, refuted): the freshly built tower has its moving block at
`x = -15`, inside `[-R, R]`, with direction `+1`; after `tick 4` the block is
at `x = 25`, beyond `R = 15`. -/
theorem tick_overshoots :
    ∃ active mb t1 active1 mb1,
      Tower.new.activeLayer = some active ∧ active.movingBlock = some mb ∧
      -MOVING_RANGE ≤ mb.position.get active.axis ∧
      mb.position.get active.axis ≤ MOVING_RANGE ∧
      Tower.new.tick 4 = some t1 ∧ t1.activeLayer = some active1 ∧
      active1.axis = active.axis ∧ active1.movingBlock = some mb1 ∧
      mb1.position.get active.axis = 25 ∧
      ¬ mb1.position.get active.axis ≤ MOVING_RANGE := by
  have hl : Tower.new.layers = [] ++ [LayerModel.new Axis.x 10 10 0 3 0] := rfl
  have hmb : (LayerModel.new Axis.x 10 10 0 3 0).movingBlock
      = some ⟨10, 3, 10, ⟨-15, 3, 0⟩, Color.movingBlock⟩ := by
    simp [LayerModel.new, BlockModel.new, initMovingBlockPosition, MOVING_RANGE,
      BASE_BLOCK_SIZE_height]
  have hp : tickPosition (-15) 1 4 = 25 := by
    norm_num [tickPosition, MOVING_RANGE, SPEED_FACTOR]
  refine ⟨_, _, _, _, _, activeLayer_append _ [] _ hl, hmb, ?_, ?_,
    tick_eq Tower.new [] _ _ 4 hl hmb, activeLayer_append _ _ _ rfl, rfl, rfl, ?_, ?_⟩
  · norm_num [LayerModel.new, Vector3.get, MOVING_RANGE]
  · norm_num [LayerModel.new, Vector3.get, MOVING_RANGE]
  · simp only [Vector3.get_set]
    simpa [LayerModel.new, Vector3.get, Tower.new, Tower.addFirstLayer] using hp
  · simp only [Vector3.get_set]
    have : tickPosition (Vector3.get ⟨-15, 3, 0⟩ (LayerModel.new Axis.x 10 10 0 3 0).axis)
        Tower.new.direction 4 = 25 := by
      simpa [LayerModel.new, Vector3.get, Tower.new, Tower.addFirstLayer] using hp
    rw [this]
    norm_num [MOVING_RANGE]

/-- C7 (amended): for a tower whose active layer has a moving block at a
position `p` within `[-R, R]`, direction `d` in `{+1, -1}` and `deltaTime`
`t ≥ 0`, `Tower.tick` returns and leaves the block at exactly
`p + t*speed*d`, unclamped: the position after the tick lies within
`[-R - speed*t, R + speed*t]`. -/
theorem tick_bound (t : Tower) (active : LayerModel) (mb : BlockModel) (delta : ℚ)
    (hact : t.activeLayer = some active) (hmb : active.movingBlock = some mb)
    (hlo : -MOVING_RANGE ≤ mb.position.get active.axis)
    (hhi : mb.position.get active.axis ≤ MOVING_RANGE)
    (hdelta : 0 ≤ delta) (hd : t.direction = 1 ∨ t.direction = -1) :
    ∃ t1 active1 mb1, t.tick delta = some t1 ∧ t1.activeLayer = some active1 ∧
      active1.axis = active.axis ∧ active1.movingBlock = some mb1 ∧
      mb1.position.get active.axis
        = mb.position.get active.axis + delta * SPEED_FACTOR * (t.direction : ℚ) ∧
      -MOVING_RANGE - SPEED_FACTOR * delta ≤ mb1.position.get active.axis ∧
      mb1.position.get active.axis ≤ MOVING_RANGE + SPEED_FACTOR * delta := by
  obtain ⟨init, hl⟩ := activeLayer_some t active hact
  refine ⟨_, _, _, tick_eq t init active mb delta hl hmb,
    activeLayer_append _ _ _ rfl, rfl, rfl, ?_⟩
  simp only [Vector3.get_set, tickPosition, not_lt.mpr hlo, not_lt.mpr hhi, if_false]
  have hs : (0 : ℚ) ≤ SPEED_FACTOR * delta :=
    mul_nonneg (by norm_num [SPEED_FACTOR]) hdelta
  refine ⟨trivial, ?_, ?_⟩ <;> rcases hd with hd | hd <;> rw [hd] <;> push_cast <;> nlinarith

theorem tick_bound_witness :
    ∃ t1 active1 mb1, Tower.new.tick 4 = some t1 ∧ t1.activeLayer = some active1 ∧
      active1.movingBlock = some mb1 ∧
      mb1.position.get Axis.x = -15 + 4 * 10 * 1 ∧
      mb1.position.get Axis.x ≤ 15 + 10 * 4 := by
  obtain ⟨t1, a1, mb1, h1, h2, -, h3, h4, -, h5⟩ :=
    tick_bound Tower.new (LayerModel.new Axis.x 10 10 0 3 0)
      ⟨10, 3, 10, ⟨-15, 3, 0⟩, Color.movingBlock⟩ 4
      (activeLayer_append _ [] _ rfl)
      (by simp [LayerModel.new, BlockModel.new, initMovingBlockPosition, MOVING_RANGE,
        BASE_BLOCK_SIZE_height])
      (by norm_num [LayerModel.new, Vector3.get, MOVING_RANGE])
      (by norm_num [LayerModel.new, Vector3.get, MOVING_RANGE])
      (by norm_num) (Or.inl rfl)
  refine ⟨t1, a1, mb1, h1, h2, h3, ?_, ?_⟩
  · simpa [LayerModel.new, Vector3.get, SPEED_FACTOR, Tower.new, Tower.addFirstLayer] using h4
  · simpa [LayerModel.new, Vector3.get, SPEED_FACTOR, MOVING_RANGE] using h5

/-! ## Placing a block -/

theorem lastPlacedBlock_append (t : Tower) (rest : List LayerModel) (a : LayerModel)
    (h : t.layers = rest.reverse ++ [a]) : t.lastPlacedBlock = belowOf t.baseBlock rest := by
  unfold Tower.lastPlacedBlock
  rw [prevLayer_append t _ a h]
  cases rest <;> simp [belowOf]

theorem place_miss_eq (t : Tower) (init : List LayerModel) (a : LayerModel) (mb : BlockModel)
    (hl : t.layers = init ++ [a]) (hmb : a.movingBlock = some mb)
    (ho : cutOverlap a mb t.lastPlacedBlock ≤ 0) :
    t.place = some
      ({ t with layers := init ++ [missResult a mb t.lastPlacedBlock] }, [Event.finish]) := by
  unfold Tower.place
  simp only [activeLayer_append t init a hl, cut_miss_eq a mb _ hmb ho]
  simp [Tower.setActiveLayer, activeLayerIndex_append t init a hl, hl]

theorem addLayer_eq (t : Tower) (init : List LayerModel) (a : LayerModel) (placed : BlockModel)
    (hl : t.layers = init ++ [a]) (hp : a.placedBlock = some placed) :
    t.addLayer = some
      ({ t with layers := init ++ [a, nextLayer a placed init.length] }, placed.position) := by
  have h4 : ∀ nl, Tower.prevLayer { t with layers := t.layers ++ [nl] } = some a := by
    intro nl
    rw [prevLayer_append _ (init ++ [a]) nl (by rw [hl])]
    simp
  unfold Tower.addLayer
  simp only [activeLayer_append t init a hl, hp, activeLayerIndex_append t init a hl]
  simp only [Tower.lastPlacedBlock, h4]
  simp [nextLayer, hl, hp]

theorem place_hit_eq (t : Tower) (init : List LayerModel) (a : LayerModel) (mb : BlockModel)
    (hl : t.layers = init ++ [a]) (hmb : a.movingBlock = some mb)
    (ho : 0 < cutOverlap a mb t.lastPlacedBlock) :
    t.place = some
      ({ t with
          layers := init ++ [hitResult a mb t.lastPlacedBlock,
            nextLayer a (hitPlaced a mb t.lastPlacedBlock) init.length]
          score := t.score + 1 },
        [Event.cameraSync (hitPlaced a mb t.lastPlacedBlock).position,
         Event.scoreUpdate (t.score + 1)]) := by
  have h1 : (t.setActiveLayer (hitResult a mb t.lastPlacedBlock)).layers
      = init ++ [hitResult a mb t.lastPlacedBlock] := setActiveLayer_append t init a _ hl
  unfold Tower.place
  simp only [activeLayer_append t init a hl, cut_hit_eq a mb _ hmb ho, if_true]
  rw [addLayer_eq _ init _ (hitPlaced a mb t.lastPlacedBlock) h1 rfl]
  simp [Tower.setActiveLayer, nextLayer, hitResult, hitLayer, LayerModel.isAxisX]

theorem place_none (t : Tower) (a : LayerModel) (hact : t.activeLayer = some a)
    (hmb : a.movingBlock = none) : t.place = none := by
  unfold Tower.place
  simp [hact, LayerModel.cut, hmb]

/-! ## The tower invariant holds in every reachable state -/

theorem belowOf_map_tickFalling (base : BlockModel) (rest : List LayerModel) (delta : ℚ) :
    belowOf base (rest.map (LayerModel.tickFalling delta)) = belowOf base rest := by
  cases rest <;> simp [belowOf, LayerModel.tickFalling]

theorem resolvedOK_tickFalling {below : BlockModel} {i : ℕ} {l : LayerModel}
    (h : ResolvedOK below i l) (delta : ℚ) :
    ResolvedOK below i (LayerModel.tickFalling delta l) := by
  obtain ⟨f, hf⟩ := h.falling
  exact ⟨h.axis_eq, h.moving,
    ⟨FallingBlockModel.tick f delta, by simp [LayerModel.tickFalling, hf]⟩, h.placed⟩

theorem stackOK_map_tickFalling {base : BlockModel} {rest : List LayerModel}
    (h : StackOK base rest) (delta : ℚ) :
    StackOK base (rest.map (LayerModel.tickFalling delta)) := by
  induction rest with
  | nil => trivial
  | cons l rest ih =>
    obtain ⟨h1, h2⟩ := h
    refine ⟨?_, ih h2⟩
    rw [belowOf_map_tickFalling, List.length_map]
    exact resolvedOK_tickFalling h1 delta

theorem belowOf_pos {base : BlockModel} {rest : List LayerModel} (h : StackOK base rest)
    (hw : 0 < base.width) (hd : 0 < base.depth) :
    0 < (belowOf base rest).width ∧ 0 < (belowOf base rest).depth := by
  cases rest with
  | nil => exact ⟨hw, hd⟩
  | cons l rest =>
    obtain ⟨p, hp, hok⟩ := h.1.placed
    simp only [belowOf, hp, Option.getD_some]
    exact ⟨hok.width_pos, hok.depth_pos⟩

theorem baseBlockInit_pos : 0 < baseBlockInit.width ∧ 0 < baseBlockInit.depth := by
  norm_num [baseBlockInit, BlockModel.new, BASE_BLOCK_SIZE_width, BASE_BLOCK_SIZE_depth]

theorem towerInv_new :
    TowerInvAt Tower.new
      (LayerModel.new Axis.x BASE_BLOCK_SIZE_width BASE_BLOCK_SIZE_depth 0
        BASE_BLOCK_SIZE_height 0) [] := by
  refine ⟨rfl, rfl, Or.inl rfl, rfl, trivial, Or.inl ⟨rfl, rfl, rfl, _, rfl, ?_, rfl, rfl, ?_⟩, ?_⟩
  · norm_num [LayerModel.new, BlockModel.new]
  · simp [LayerModel.new, BlockModel.new, belowOf, Tower.new, Tower.addFirstLayer, baseBlockInit,
      Axis.other, Vector3.get]
  · intro m hm
    have : m.position.get Axis.x = -MOVING_RANGE := by
      simp only [LayerModel.new, Option.some.injEq] at hm
      subst hm
      simp [BlockModel.new, Vector3.get, initMovingBlockPosition]
    simp only [LayerModel.new, this]
    constructor <;> intro h <;> norm_num [MOVING_RANGE] at h

theorem reset_eq (t : Tower) (h : t.baseBlock = baseBlockInit) : t.reset.1 = Tower.new := by
  simp [Tower.reset, Tower.new, Tower.addFirstLayer, h]

theorem tickDirection_cases (p : ℚ) (d : ℤ) (hd : d = 1 ∨ d = -1) :
    tickDirection p d = 1 ∨ tickDirection p d = -1 := by
  unfold tickDirection
  split_ifs
  · rcases hd with hd | hd <;> simp [hd]
  · exact hd

theorem tick_range (p : ℚ) (d : ℤ) (delta : ℚ) (hdelta : 0 ≤ delta) (hd : d = 1 ∨ d = -1)
    (hhi : MOVING_RANGE < p → d = 1) (hlo : p < -MOVING_RANGE → d = -1) :
    (MOVING_RANGE < tickPosition p d delta → tickDirection p d = 1) ∧
    (tickPosition p d delta < -MOVING_RANGE → tickDirection p d = -1) := by
  have hs : (0 : ℚ) ≤ delta * SPEED_FACTOR := mul_nonneg hdelta (by norm_num [SPEED_FACTOR])
  have hR : (0 : ℚ) < MOVING_RANGE := by norm_num [MOVING_RANGE]
  by_cases h1 : MOVING_RANGE < p
  · have hd1 := hhi h1
    subst hd1
    have hp : tickPosition p 1 delta = MOVING_RANGE - delta * SPEED_FACTOR := by
      simp [tickPosition, h1]; ring
    have hdir : tickDirection p 1 = -1 := by simp [tickDirection, h1]
    rw [hp, hdir]
    exact ⟨fun h => absurd h (by linarith), fun _ => rfl⟩
  · by_cases h2 : p < -MOVING_RANGE
    · have hd1 := hlo h2
      subst hd1
      have hp : tickPosition p (-1) delta = -MOVING_RANGE + delta * SPEED_FACTOR := by
        simp [tickPosition, h1, h2]
      have hdir : tickDirection p (-1) = 1 := by simp [tickDirection, h2]
      rw [hp, hdir]
      exact ⟨fun _ => rfl, fun h => absurd h (by linarith)⟩
    · have hp : tickPosition p d delta = p + delta * SPEED_FACTOR * (d : ℚ) := by
        simp [tickPosition, h1, h2]
      have hdir : tickDirection p d = d := by simp [tickDirection, h1, h2]
      rw [hp, hdir]
      rcases hd with hd | hd <;> subst hd
      · exact ⟨fun _ => rfl, fun h => absurd h (by push_cast; linarith)⟩
      · exact ⟨fun h => absurd h (by push_cast; linarith), fun _ => rfl⟩

theorem towerInv_tick {t t1 : Tower} {top : LayerModel} {rest : List LayerModel} (delta : ℚ)
    (h : TowerInvAt t top rest) (hdelta : 0 ≤ delta) (htick : t.tick delta = some t1) :
    ∃ top1, TowerInvAt t1 top1 (rest.map (LayerModel.tickFalling delta)) := by
  rcases h.top_ok with hs | hm
  · obtain ⟨m, hmb, hy, hw, hdp, hoth⟩ := hs.moving
    rw [tick_eq t rest.reverse top m delta h.layers_eq hmb] at htick
    have ht1 := (Option.some.inj htick).symm
    subst ht1
    obtain ⟨hr1, hr2⟩ := h.range m hmb
    refine ⟨{ LayerModel.tickFalling delta top with
        movingBlock := some { m with
          position := m.position.set top.axis
            (tickPosition (m.position.get top.axis) t.direction delta) } },
      ⟨by simp [List.map_reverse], h.base_eq, tickDirection_cases _ _ h.dir, ?_,
      stackOK_map_tickFalling h.stack delta, Or.inl ⟨?_, hs.placed, ?_, _, rfl, ?_, ?_, ?_, ?_⟩, ?_⟩⟩
    · simpa using h.score_eq
    · simpa using hs.axis_eq
    · simp [LayerModel.tickFalling, hs.falling]
    · simpa [Vector3.y_set] using hy
    · simpa [belowOf_map_tickFalling] using hw
    · simpa [belowOf_map_tickFalling] using hdp
    · simpa [belowOf_map_tickFalling, LayerModel.tickFalling, Vector3.get_other_set] using hoth
    · intro m1 hm1
      simp only [Option.some.injEq] at hm1
      subst hm1
      simpa [LayerModel.tickFalling, Vector3.get_set] using
        tick_range _ _ delta hdelta h.dir hr1 hr2
  · rw [tick_idle_eq t top delta (activeLayer_append t _ top h.layers_eq) hm.moving] at htick
    have ht1 := (Option.some.inj htick).symm
    subst ht1
    obtain ⟨f, hf⟩ := hm.falling
    refine ⟨LayerModel.tickFalling delta top,
      ⟨by simp [h.layers_eq, List.map_reverse], h.base_eq, h.dir, ?_,
        stackOK_map_tickFalling h.stack delta,
        Or.inr ⟨?_, hm.placed, ?_, ⟨FallingBlockModel.tick f delta, ?_⟩⟩, ?_⟩⟩
    · simpa using h.score_eq
    · simpa using hm.axis_eq
    · simp [LayerModel.tickFalling, hm.moving]
    · simp [LayerModel.tickFalling, hf]
    · intro m1 hm1
      simp [LayerModel.tickFalling, hm.moving] at hm1

theorem axisAt_succ (i : ℕ) : axisAt (i + 1) = (axisAt i).other := by
  unfold axisAt
  rcases Nat.mod_two_eq_zero_or_one i with h | h
  · have : (i + 1) % 2 = 1 := by omega
    simp [h, this, Axis.other]
  · have : (i + 1) % 2 = 0 := by omega
    simp [h, this, Axis.other]

theorem nextLayer_axis (active : LayerModel) (placed : BlockModel) (index : ℕ) :
    (nextLayer active placed index).axis = active.axis.other := by
  cases h : active.axis <;> simp [nextLayer, LayerModel.new, LayerModel.isAxisX, h, Axis.other]

theorem nextLayer_moving (active : LayerModel) (placed : BlockModel) (index : ℕ) :
    ∃ m, (nextLayer active placed index).movingBlock = some m ∧
      m.width = placed.width ∧ m.depth = placed.depth ∧
      m.position.y = ((index : ℚ) + 2) * BASE_BLOCK_SIZE_height ∧
      m.position.get active.axis.other = -MOVING_RANGE ∧
      m.position.get active.axis = placed.position.get active.axis := by
  refine ⟨_, rfl, rfl, rfl, ?_, ?_⟩
  · simp [BlockModel.new]
  · cases h : active.axis <;>
      simp [BlockModel.new, LayerModel.isAxisX, h, Axis.other, Vector3.get,
        initMovingBlockPosition]

theorem cutOverlap_le (layer : LayerModel) (mb ref : BlockModel) :
    cutOverlap layer mb ref ≤ mb.size layer.axis := by
  rw [cutOverlap_eq]
  linarith [abs_nonneg (mb.position.get layer.axis - ref.position.get layer.axis)]

theorem hitPlaced_ok (layer : LayerModel) (mb ref : BlockModel) (i : ℕ)
    (ho : 0 < cutOverlap layer mb ref) (hw : mb.width = ref.width) (hd : mb.depth = ref.depth)
    (hrw : 0 < ref.width) (hrd : 0 < ref.depth)
    (hy : mb.position.y = ((i : ℚ) + 1) * BASE_BLOCK_SIZE_height) :
    PlacedOK ref i (hitPlaced layer mb ref) := by
  have h1 := (hit_geometry layer mb ref).1
  have h2 := (hit_other layer mb ref).1
  have h3 := (hit_other layer mb ref).2.2.2.2.1
  have hle := cutOverlap_le layer mb ref
  cases h : layer.axis <;> rw [h] at h1 h2 hle <;>
    simp only [BlockModel.size, Axis.other] at h1 h2 hle <;>
    refine ⟨by rw [h3, hy], ?_, ?_, ?_, ?_⟩ <;> linarith

theorem towerInv_place_miss {t : Tower} {top : LayerModel} {rest : List LayerModel}
    (m : BlockModel) (h : TowerInvAt t top rest) (hplaced : top.placedBlock = none) :
    TowerInvAt { t with layers := rest.reverse ++ [missResult top m t.lastPlacedBlock] }
      (missResult top m t.lastPlacedBlock) rest := by
  have haxis : top.axis = axisAt rest.length := by
    rcases h.top_ok with hs | hm
    · exact hs.axis_eq
    · exact hm.axis_eq
  refine ⟨rfl, h.base_eq, h.dir, h.score_eq, h.stack,
    Or.inr ⟨haxis, hplaced, rfl, ⟨_, rfl⟩⟩, ?_⟩
  intro m1 hm1
  simp [missResult] at hm1

theorem towerInv_place_hit {t : Tower} {top : LayerModel} {rest : List LayerModel}
    {m : BlockModel} (h : TowerInvAt t top rest) (hmb : top.movingBlock = some m)
    (hs : SlidingOK (belowOf t.baseBlock rest) rest.length top)
    (ho : 0 < cutOverlap top m t.lastPlacedBlock) :
    TowerInvAt
      { t with
        layers := rest.reverse ++ [hitResult top m t.lastPlacedBlock,
          nextLayer top (hitPlaced top m t.lastPlacedBlock) rest.reverse.length]
        score := t.score + 1 }
      (nextLayer top (hitPlaced top m t.lastPlacedBlock) rest.reverse.length)
      (hitResult top m t.lastPlacedBlock :: rest) := by
  have hlast := lastPlacedBlock_append t rest top h.layers_eq
  obtain ⟨m0, hmb0, hy, hw, hdp, hoth⟩ := hs.moving
  rw [hmb] at hmb0
  have hm0 := Option.some.inj hmb0
  subst hm0
  have hbase := baseBlockInit_pos
  rw [← h.base_eq] at hbase
  obtain ⟨hbw, hbd⟩ := belowOf_pos h.stack hbase.1 hbase.2
  have hpl : PlacedOK (belowOf t.baseBlock rest) rest.length
      (hitPlaced top m t.lastPlacedBlock) := by
    rw [hlast] at ho ⊢
    exact hitPlaced_ok top m _ rest.length ho hw hdp hbw hbd hy
  obtain ⟨nm, hnm, hnw, hnd, hny, hnp, hno⟩ :=
    nextLayer_moving top (hitPlaced top m t.lastPlacedBlock) rest.reverse.length
  have hnaxis := nextLayer_axis top (hitPlaced top m t.lastPlacedBlock) rest.reverse.length
  refine ⟨by simp, h.base_eq, h.dir, ?_, ⟨⟨hs.axis_eq, rfl, ⟨_, rfl⟩, ⟨_, rfl, hpl⟩⟩, h.stack⟩,
    Or.inl ⟨?_, rfl, rfl, nm, hnm, ?_, ?_, ?_, ?_⟩, ?_⟩
  · simp [h.score_eq]
  · rw [hnaxis, hs.axis_eq, List.length_cons, axisAt_succ]
  · rw [hny, List.length_reverse, List.length_cons]; push_cast; ring
  · simpa [belowOf, hitResult] using hnw
  · simpa [belowOf, hitResult] using hnd
  · rw [hnaxis]
    have : top.axis.other.other = top.axis := by cases top.axis <;> rfl
    rw [this, hno]
    simp [belowOf, hitResult]
  · intro m1 hm1
    rw [hnm] at hm1
    have := Option.some.inj hm1
    subst this
    rw [hnaxis, hnp]
    constructor <;> intro hc <;> norm_num [MOVING_RANGE] at hc

theorem towerInv_place {t t1 : Tower} {events : List Event} (h : TowerInv t)
    (hplace : t.place = some (t1, events)) : TowerInv t1 := by
  obtain ⟨top, rest, h⟩ := h
  rcases h.top_ok with hs | hm
  · obtain ⟨m, hmb, -⟩ := hs.moving
    by_cases ho : 0 < cutOverlap top m t.lastPlacedBlock
    · rw [place_hit_eq t rest.reverse top m h.layers_eq hmb ho] at hplace
      simp only [Option.some.injEq, Prod.mk.injEq] at hplace
      rw [← hplace.1]
      exact ⟨_, _, towerInv_place_hit h hmb hs ho⟩
    · rw [place_miss_eq t rest.reverse top m h.layers_eq hmb (not_lt.mp ho)] at hplace
      simp only [Option.some.injEq, Prod.mk.injEq] at hplace
      rw [← hplace.1]
      exact ⟨_, _, towerInv_place_miss m h hs.placed⟩
  · rw [place_none t top (activeLayer_append t _ top h.layers_eq) hm.moving] at hplace
    exact absurd hplace (by simp)

theorem reachable_inv {t : Tower} (h : Reachable t) : TowerInv t := by
  induction h with
  | init => exact ⟨_, _, towerInv_new⟩
  | tick delta _ hdelta htick ih =>
    obtain ⟨top, rest, hinv⟩ := ih
    obtain ⟨top1, h1⟩ := towerInv_tick delta hinv hdelta htick
    exact ⟨top1, _, h1⟩
  | place _ hplace ih => exact towerInv_place ih hplace
  | reset _ ih =>
    obtain ⟨top, rest, hinv⟩ := ih
    rw [reset_eq _ hinv.base_eq]
    exact ⟨_, _, towerInv_new⟩

/-! ## Reading the invariant layer by layer -/

theorem blockBelow_append_left (base : BlockModel) (xs ys : List LayerModel) (i : ℕ)
    (hi : i ≤ xs.length) : blockBelow base (xs ++ ys) i = blockBelow base xs i := by
  cases i with
  | zero => rfl
  | succ j =>
    simp only [blockBelow]
    rw [List.getElem?_append_left (by omega)]

theorem blockBelow_reverse (base : BlockModel) (rest : List LayerModel) :
    blockBelow base rest.reverse rest.length = belowOf base rest := by
  cases rest with
  | nil => rfl
  | cons l r =>
    simp only [blockBelow, List.length_cons, List.reverse_cons, belowOf]
    rw [List.getElem?_append_right (by simp)]
    simp

theorem resolvedOK_layerOK {below : BlockModel} {i n : ℕ} {l : LayerModel}
    (h : ResolvedOK below i l) : LayerOK n below i l := by
  obtain ⟨p, hp, hok⟩ := h.placed
  refine ⟨h.axis_eq, ?_, ?_, fun _ => ⟨p, hp⟩, fun _ => h.falling⟩
  · intro m hm
    rw [h.moving] at hm
    exact absurd hm (by simp)
  · intro q hq
    rw [hp] at hq
    have := Option.some.inj hq
    subst this
    exact ⟨h.moving, hok⟩

theorem slidingOK_layerOK {below : BlockModel} {i : ℕ} {l : LayerModel}
    (h : SlidingOK below i l) : LayerOK (i + 1) below i l := by
  obtain ⟨m, hm, hrest⟩ := h.moving
  refine ⟨h.axis_eq, ?_, ?_, fun hlt => absurd hlt (lt_irrefl _), ?_⟩
  · intro m1 hm1
    rw [hm] at hm1
    have := Option.some.inj hm1
    subst this
    exact ⟨rfl, h.placed, h.falling, hrest⟩
  · intro q hq
    rw [h.placed] at hq
    exact absurd hq (by simp)
  · intro hnone
    rw [hm] at hnone
    exact absurd hnone (by simp)

theorem missedOK_layerOK {below : BlockModel} {i : ℕ} {l : LayerModel}
    (h : MissedOK i l) : LayerOK (i + 1) below i l := by
  refine ⟨h.axis_eq, ?_, ?_, fun hlt => absurd hlt (lt_irrefl _), fun _ => h.falling⟩
  · intro m hm
    rw [h.moving] at hm
    exact absurd hm (by simp)
  · intro q hq
    rw [h.placed] at hq
    exact absurd hq (by simp)

theorem stackOK_index {base : BlockModel} {rest : List LayerModel} (h : StackOK base rest)
    (i : ℕ) (l : LayerModel) (hl : rest.reverse[i]? = some l) :
    ResolvedOK (blockBelow base rest.reverse i) i l := by
  induction rest with
  | nil => simp at hl
  | cons l0 r ih =>
    obtain ⟨h1, h2⟩ := h
    rw [List.reverse_cons] at hl ⊢
    rcases Nat.lt_or_ge i r.reverse.length with hlt | hge
    · rw [List.getElem?_append_left hlt] at hl
      rw [blockBelow_append_left base _ _ i (le_of_lt hlt)]
      exact ih h2 hl
    · rw [List.getElem?_append_right hge] at hl
      have hi : i = r.length := by
        rw [List.length_reverse] at hge
        by_contra hne
        have : i - r.reverse.length ≠ 0 := by rw [List.length_reverse]; omega
        obtain ⟨k, hk⟩ := Nat.exists_eq_succ_of_ne_zero this
        rw [hk] at hl
        simp at hl
      subst hi
      simp at hl
      subst hl
      rw [blockBelow_append_left base _ _ _ (by simp), blockBelow_reverse]
      exact h1

theorem towerInv_index {t : Tower} {top : LayerModel} {rest : List LayerModel}
    (h : TowerInvAt t top rest) (i : ℕ) (l : LayerModel) (hl : t.layers[i]? = some l) :
    LayerOK t.layers.length (blockBelow t.baseBlock t.layers i) i l := by
  rw [h.layers_eq] at hl ⊢
  have hn : (rest.reverse ++ [top]).length = rest.length + 1 := by simp
  rw [hn]
  rcases Nat.lt_or_ge i rest.reverse.length with hlt | hge
  · rw [List.getElem?_append_left hlt] at hl
    rw [blockBelow_append_left _ _ _ i (le_of_lt hlt)]
    exact resolvedOK_layerOK (stackOK_index h.stack i l hl)
  · rw [List.getElem?_append_right hge] at hl
    have hi : i = rest.length := by
      rw [List.length_reverse] at hge
      by_contra hne
      have : i - rest.reverse.length ≠ 0 := by rw [List.length_reverse]; omega
      obtain ⟨k, hk⟩ := Nat.exists_eq_succ_of_ne_zero this
      rw [hk] at hl
      simp at hl
    subst hi
    simp at hl
    subst hl
    rw [blockBelow_append_left _ _ _ _ (by simp), blockBelow_reverse]
    rcases h.top_ok with hs | hm
    · exact slidingOK_layerOK hs
    · exact missedOK_layerOK hm

/-! ## The concrete run -/

theorem tick_new : Tower.new.tick 1 = some towerAfterTick := by
  have hl : Tower.new.layers = [] ++ [LayerModel.new Axis.x 10 10 0 3 0] := rfl
  have hmb : (LayerModel.new Axis.x 10 10 0 3 0).movingBlock
      = some ⟨10, 3, 10, ⟨-15, 3, 0⟩, Color.movingBlock⟩ := by
    simp [LayerModel.new, BlockModel.new, initMovingBlockPosition, MOVING_RANGE,
      BASE_BLOCK_SIZE_height]
  rw [tick_eq Tower.new [] _ _ 1 hl hmb]
  norm_num [towerAfterTick, Tower.new, Tower.addFirstLayer, LayerModel.new,
    LayerModel.tickFalling, Vector3.get, Vector3.set, tickPosition, tickDirection, MOVING_RANGE,
    SPEED_FACTOR]

theorem place_afterTick :
    towerAfterTick.place = some (towerAfterPlace,
      [Event.cameraSync ⟨-5 / 2, 3, 0⟩, Event.scoreUpdate 1]) := by
  have hl : towerAfterTick.layers = [] ++
      [{ axis := Axis.x
         movingBlock := some ⟨10, 3, 10, ⟨-5, 3, 0⟩, Color.movingBlock⟩
         placedBlock := none
         fallingBlock := none
         overlap := 0
         isCuttingBehind := false }] := rfl
  have href : towerAfterTick.lastPlacedBlock = baseBlockInit := by
    rw [lastPlacedBlock_append towerAfterTick [] _ hl]
    rfl
  have ho : cutOverlap
      { axis := Axis.x
        movingBlock := some ⟨10, 3, 10, ⟨-5, 3, 0⟩, Color.movingBlock⟩
        placedBlock := none
        fallingBlock := none
        overlap := 0
        isCuttingBehind := false }
      ⟨10, 3, 10, ⟨-5, 3, 0⟩, Color.movingBlock⟩ baseBlockInit = 5 := by
    norm_num [cutOverlap, baseBlockInit, BlockModel.new, LayerModel.isAxisX]
  rw [place_hit_eq towerAfterTick [] _ _ hl rfl (by rw [href, ho]; norm_num)]
  simp only [href, hitResult, hitPlaced, hitFalling, hitLayer, ho]
  norm_num [towerAfterTick, towerAfterPlace, layerCut, layerNext, nextLayer, LayerModel.new, BlockModel.new,
    baseBlockInit, PlacedBlockModel.new, FallingBlockModel.new, calcPlacedBlockProps,
    getFallingBlockProps, calcPlacedBlockShift, calcFallingPosition, LayerModel.isAxisX,
    LayerModel.isAxisZ, Vector3.get, initMovingBlockPosition, MOVING_RANGE,
    BASE_BLOCK_SIZE_height, BASE_BLOCK_SIZE_width, BASE_BLOCK_SIZE_depth]
  decide

theorem reachable_afterTick : Reachable towerAfterTick :=
  Reachable.tick 1 Reachable.init (by norm_num) tick_new

theorem reachable_afterPlace : Reachable towerAfterPlace :=
  Reachable.place reachable_afterTick place_afterTick

/-! ## Consequences for reachable towers -/

theorem place_some_cases {t t1 : Tower} {top : LayerModel} {rest : List LayerModel}
    {events : List Event} (h : TowerInvAt t top rest) (hplace : t.place = some (t1, events)) :
    ∃ m, top.movingBlock = some m ∧
      SlidingOK (belowOf t.baseBlock rest) rest.length top ∧
      ((cutOverlap top m t.lastPlacedBlock ≤ 0 ∧
          t1 = { t with layers := rest.reverse ++ [missResult top m t.lastPlacedBlock] } ∧
          events = [Event.finish]) ∨
       (0 < cutOverlap top m t.lastPlacedBlock ∧
          t1 = { t with
            layers := rest.reverse ++ [hitResult top m t.lastPlacedBlock,
              nextLayer top (hitPlaced top m t.lastPlacedBlock) rest.reverse.length]
            score := t.score + 1 } ∧
          events = [Event.cameraSync (hitPlaced top m t.lastPlacedBlock).position,
            Event.scoreUpdate (t.score + 1)])) := by
  rcases h.top_ok with hs | hm
  · obtain ⟨m, hmb, -⟩ := hs.moving
    refine ⟨m, hmb, hs, ?_⟩
    by_cases ho : 0 < cutOverlap top m t.lastPlacedBlock
    · rw [place_hit_eq t rest.reverse top m h.layers_eq hmb ho] at hplace
      simp only [Option.some.injEq, Prod.mk.injEq] at hplace
      exact Or.inr ⟨ho, hplace.1.symm, hplace.2.symm⟩
    · rw [place_miss_eq t rest.reverse top m h.layers_eq hmb (not_lt.mp ho)] at hplace
      simp only [Option.some.injEq, Prod.mk.injEq] at hplace
      exact Or.inl ⟨not_lt.mp ho, hplace.1.symm, hplace.2.symm⟩
  · rw [place_none t top (activeLayer_append t _ top h.layers_eq) hm.moving] at hplace
    exact absurd hplace (by simp)

/-- C9: in every reachable tower the layer at index `i` slides along `x` when
`i` is even and along `z` when `i` is odd; in particular the first layer
slides along `x`, and a `place` that appends a layer gives the new active layer
the axis opposite to that of the layer it was placed on. -/
theorem layer_axis_alternates (t : Tower) (h : Reachable t) :
    (∀ i l, t.layers[i]? = some l →
      (i % 2 = 0 → l.axis = Axis.x) ∧ (i % 2 = 1 → l.axis = Axis.z)) ∧
    (∃ first, t.layers[0]? = some first ∧ first.axis = Axis.x) ∧
    (∀ t1 events, t.place = some (t1, events) → t1.layers.length = t.layers.length + 1 →
      ∃ a b, t.activeLayer = some a ∧ t1.activeLayer = some b ∧ b.axis = a.axis.other) := by
  obtain ⟨top, rest, hinv⟩ := reachable_inv h
  have hidx : ∀ i l, t.layers[i]? = some l → l.axis = axisAt i :=
    fun i l hl => (towerInv_index hinv i l hl).axis_eq
  refine ⟨?_, ?_, ?_⟩
  · intro i l hl
    rw [hidx i l hl]
    constructor <;> intro hi <;> simp [axisAt, hi]
  · have hne : t.layers ≠ [] := by rw [hinv.layers_eq]; simp
    obtain ⟨first, tl, hft⟩ := List.exists_cons_of_ne_nil hne
    refine ⟨first, by rw [hft]; simp, ?_⟩
    rw [hidx 0 first (by rw [hft]; simp)]
    rfl
  · intro t1 events hplace hlen
    obtain ⟨m, -, -, hcase⟩ := place_some_cases hinv hplace
    refine ⟨top, nextLayer top (hitPlaced top m t.lastPlacedBlock) rest.reverse.length,
      activeLayer_append t _ top hinv.layers_eq, ?_⟩
    rcases hcase with ⟨-, ht1, -⟩ | ⟨-, ht1, -⟩
    · rw [ht1, hinv.layers_eq] at hlen
      simp at hlen
    · exact ⟨activeLayer_append t1 (rest.reverse ++ [hitResult top m t.lastPlacedBlock])
        (nextLayer top (hitPlaced top m t.lastPlacedBlock) rest.reverse.length)
        (by rw [ht1]; simp), nextLayer_axis _ _ _⟩

theorem layer_axis_alternates_witness :
    towerAfterPlace.layers[0]? = some layerCut ∧ layerCut.axis = Axis.x ∧
    towerAfterPlace.layers[1]? = some layerNext ∧ layerNext.axis = Axis.z := by
  have h0 : towerAfterPlace.layers[0]? = some layerCut := by simp [towerAfterPlace]
  have h1 : towerAfterPlace.layers[1]? = some layerNext := by simp [towerAfterPlace]
  have h := (layer_axis_alternates towerAfterPlace reachable_afterPlace).1
  exact ⟨h0, (h 0 _ h0).1 rfl, h1, (h 1 _ h1).2 rfl⟩

/-- C6: in every reachable tower every placed block has strictly positive
width and depth, and neither exceeds the corresponding dimension of the block
directly beneath it: the 10 x 10 base block for the first layer, the placed
block of the layer below otherwise. -/
theorem placed_block_positive (t : Tower) (h : Reachable t) (i : ℕ) (l : LayerModel)
    (p : BlockModel) (hl : t.layers[i]? = some l) (hp : l.placedBlock = some p) :
    0 < p.width ∧ 0 < p.depth ∧
    p.width ≤ (blockBelow t.baseBlock t.layers i).width ∧
    p.depth ≤ (blockBelow t.baseBlock t.layers i).depth ∧
    (i = 0 → blockBelow t.baseBlock t.layers i = t.baseBlock ∧
      t.baseBlock.width = 10 ∧ t.baseBlock.depth = 10) ∧
    (∀ j, i = j + 1 → ∃ lb pb, t.layers[j]? = some lb ∧ lb.placedBlock = some pb ∧
      blockBelow t.baseBlock t.layers i = pb) := by
  obtain ⟨top, rest, hinv⟩ := reachable_inv h
  obtain ⟨-, hok⟩ := (towerInv_index hinv i l hl).placed p hp
  refine ⟨hok.width_pos, hok.depth_pos, hok.width_le, hok.depth_le, ?_, ?_⟩
  · intro hi
    subst hi
    refine ⟨rfl, ?_, ?_⟩ <;> rw [hinv.base_eq] <;>
      norm_num [baseBlockInit, BlockModel.new, BASE_BLOCK_SIZE_width, BASE_BLOCK_SIZE_depth]
  · intro j hj
    subst hj
    obtain ⟨hlt, -⟩ := List.getElem?_eq_some.1 hl
    have hj : t.layers[j]? = some (t.layers.get ⟨j, by omega⟩) :=
      List.getElem?_eq_getElem (by omega)
    obtain ⟨pb, hpb⟩ := (towerInv_index hinv j _ hj).lower (by omega)
    exact ⟨_, pb, hj, hpb, by simp only [blockBelow, hj, Option.some_bind, hpb, Option.getD_some]⟩

theorem placed_block_positive_witness :
    towerAfterPlace.layers[0]? = some layerCut ∧
    layerCut.placedBlock = some ⟨5, 3, 10, ⟨-5 / 2, 3, 0⟩, Color.placedBlock⟩ ∧
    (0 : ℚ) < 5 ∧ (5 : ℚ) ≤ (blockBelow towerAfterPlace.baseBlock towerAfterPlace.layers 0).width ∧
    (10 : ℚ) ≤ (blockBelow towerAfterPlace.baseBlock towerAfterPlace.layers 0).depth := by
  have h0 : towerAfterPlace.layers[0]? = some layerCut := by simp [towerAfterPlace]
  obtain ⟨h1, -, h3, h4, -⟩ :=
    placed_block_positive towerAfterPlace reachable_afterPlace 0 layerCut
      ⟨5, 3, 10, ⟨-5 / 2, 3, 0⟩, Color.placedBlock⟩ h0 rfl
  exact ⟨h0, rfl, h1, h3, h4⟩

/-- C10: in every reachable tower the moving or placed block of the layer at
index `i` has `y = (i + 1) * 3`; and when the cut made by `place` succeeds,
`place` returns a tower with exactly one more layer, the cut layer followed by
a new layer whose axis is the opposite one and whose moving block has the width
and depth of the just-placed block, sits at `-15` along the new axis, has the
just-placed block's coordinate along the other horizontal axis, and has `y`
exactly `3` above the just-placed block. -/
theorem place_appends_layer (t : Tower) (h : Reachable t) :
    (∀ (i : ℕ) (l : LayerModel), t.layers[i]? = some l →
      (∀ m, l.movingBlock = some m → m.position.y = ((i : ℚ) + 1) * 3) ∧
      (∀ p, l.placedBlock = some p → p.position.y = ((i : ℚ) + 1) * 3)) ∧
    (∀ a a1, t.activeLayer = some a → a.cut t.lastPlacedBlock = some (a1, true) →
      ∃ (t1 : Tower) (events : List Event) (placed : BlockModel) (nl : LayerModel)
        (m : BlockModel), t.place = some (t1, events) ∧
        a1.placedBlock = some placed ∧
        t1.layers = t.layers.dropLast ++ [a1, nl] ∧
        t1.layers.length = t.layers.length + 1 ∧
        nl.axis = a.axis.other ∧ nl.movingBlock = some m ∧
        m.width = placed.width ∧ m.depth = placed.depth ∧
        m.position.get nl.axis = -15 ∧
        m.position.get nl.axis.other = placed.position.get nl.axis.other ∧
        m.position.y = placed.position.y + 3) := by
  obtain ⟨top, rest, hinv⟩ := reachable_inv h
  constructor
  · intro i l hl
    have hok := towerInv_index hinv i l hl
    exact ⟨fun m hm => (hok.moving m hm).2.2.2.1, fun p hp => (hok.placed p hp).2.y_eq⟩
  · intro a a1 hact hcut
    rw [activeLayer_append t _ top hinv.layers_eq] at hact
    have ha := Option.some.inj hact
    subst ha
    rcases hinv.top_ok with hs | hm
    · obtain ⟨m0, hmb, hy, -⟩ := hs.moving
      have ho := cut_true_overlap top m0 _ a1 hmb hcut
      rw [cut_hit_eq top m0 _ hmb ho] at hcut
      simp only [Option.some.injEq, Prod.mk.injEq, and_true] at hcut
      subst hcut
      obtain ⟨nm, hnm, hnw, hnd, hny, hnp, hno⟩ :=
        nextLayer_moving top (hitPlaced top m0 t.lastPlacedBlock) rest.reverse.length
      have hnaxis := nextLayer_axis top (hitPlaced top m0 t.lastPlacedBlock) rest.reverse.length
      have hoo : top.axis.other.other = top.axis := by cases top.axis <;> rfl
      refine ⟨_, _, hitPlaced top m0 t.lastPlacedBlock,
        nextLayer top (hitPlaced top m0 t.lastPlacedBlock) rest.reverse.length, nm,
        place_hit_eq t rest.reverse top m0 hinv.layers_eq hmb ho, rfl, ?_, ?_, hnaxis, hnm,
        hnw, hnd, ?_, ?_, ?_⟩
      · simp [hinv.layers_eq, List.dropLast_concat]
      · simp [hinv.layers_eq]
      · rw [hnaxis, hnp]; norm_num [MOVING_RANGE]
      · rw [hnaxis, hoo, hno]
      · rw [hny, (hit_other top m0 t.lastPlacedBlock).2.2.2.2.1, hy, List.length_reverse]
        norm_num [BASE_BLOCK_SIZE_height]
        ring
    · simp [LayerModel.cut, hm.moving] at hcut

theorem place_appends_layer_witness :
    ∃ (t1 : Tower) (events : List Event) (placed : BlockModel) (nl : LayerModel)
      (m : BlockModel), towerAfterTick.place = some (t1, events) ∧
      t1.layers.length = towerAfterTick.layers.length + 1 ∧
      nl.movingBlock = some m ∧ m.width = placed.width ∧ m.depth = placed.depth ∧
      m.position.y = placed.position.y + 3 := by
  have hl : towerAfterTick.layers = [] ++
      [{ axis := Axis.x
         movingBlock := some ⟨10, 3, 10, ⟨-5, 3, 0⟩, Color.movingBlock⟩
         placedBlock := none
         fallingBlock := none
         overlap := 0
         isCuttingBehind := false }] := rfl
  have href : towerAfterTick.lastPlacedBlock = baseBlockInit := by
    rw [lastPlacedBlock_append towerAfterTick [] _ hl]
    rfl
  have ho : (0 : ℚ) < cutOverlap
      { axis := Axis.x
        movingBlock := some ⟨10, 3, 10, ⟨-5, 3, 0⟩, Color.movingBlock⟩
        placedBlock := none
        fallingBlock := none
        overlap := 0
        isCuttingBehind := false }
      ⟨10, 3, 10, ⟨-5, 3, 0⟩, Color.movingBlock⟩ towerAfterTick.lastPlacedBlock := by
    rw [href]
    norm_num [cutOverlap, baseBlockInit, BlockModel.new, LayerModel.isAxisX]
  obtain ⟨t1, events, placed, nl, m, h1, -, -, h4, -, h6, h7, h8, -, -, h11⟩ :=
    (place_appends_layer towerAfterTick reachable_afterTick).2 _ _
      (activeLayer_append towerAfterTick [] _ hl) (cut_hit_eq _ _ _ rfl ho)
  exact ⟨t1, events, placed, nl, m, h1, h4, h6, h7, h8, h11⟩

theorem cutOverlap_eq_inter (layer : LayerModel) (m ref : BlockModel)
    (hs : m.size layer.axis = ref.size layer.axis) :
    cutOverlap layer m ref
      = min (m.hi layer.axis) (ref.hi layer.axis) - max (m.lo layer.axis) (ref.lo layer.axis) := by
  rw [cutOverlap_eq]
  simp only [BlockModel.lo, BlockModel.hi, ← hs]
  rcases le_total (m.position.get layer.axis) (ref.position.get layer.axis) with hle | hle
  · rw [min_eq_left (by linarith), max_eq_right (by linarith), abs_of_nonpos (by linarith)]
    ring
  · rw [min_eq_right (by linarith), max_eq_left (by linarith), abs_of_nonneg (by linarith)]
    ring

theorem hitPlaced_footprint (layer : LayerModel) (m ref : BlockModel)
    (hs : ∀ ax, m.size ax = ref.size ax)
    (hoth : m.position.get layer.axis.other = ref.position.get layer.axis.other) (ax : Axis) :
    (hitPlaced layer m ref).lo ax = max (m.lo ax) (ref.lo ax) ∧
    (hitPlaced layer m ref).hi ax = min (m.hi ax) (ref.hi ax) := by
  have hax : ax = layer.axis ∨ ax = layer.axis.other := by
    cases ax <;> cases layer.axis <;> simp [Axis.other]
  rcases hax with hax | hax <;> subst hax
  · obtain ⟨h1, -, h3, -⟩ := hit_geometry layer m ref
    have ho := cutOverlap_eq layer m ref
    simp only [BlockModel.lo, BlockModel.hi, h1, h3, ← hs layer.axis]
    by_cases hb : m.position.get layer.axis < ref.position.get layer.axis
    · rw [if_pos hb, max_eq_right (by linarith), min_eq_left (by linarith)]
      rw [abs_of_neg (by linarith)] at ho
      constructor <;> linarith
    · rw [if_neg hb, max_eq_left (by linarith [not_lt.mp hb]),
        min_eq_right (by linarith [not_lt.mp hb])]
      rw [abs_of_nonneg (by linarith [not_lt.mp hb])] at ho
      constructor <;> linarith
  · obtain ⟨h1, -, h3, -⟩ := hit_other layer m ref
    simp only [BlockModel.lo, BlockModel.hi, h1, h3, ← hs layer.axis.other, ← hoth, max_self,
      min_self, and_self]

/-- C4 (amended): with the arithmetic of `cut` carried out exactly, in every
reachable tower whose active layer still has its moving block, that block has
the width and depth of `lastPlacedBlock` and its coordinate on the non-active
horizontal axis; `place` returns, the overlap it stores in the cut layer is the
signed length of the intersection of the two extents along the active axis
(least upper edge minus greatest lower edge), and on success the placed block's
footprint is, on both horizontal axes, the intersection of the moving block's
footprint with that of `lastPlacedBlock`. -/
theorem overlap_is_intersection (t : Tower) (h : Reachable t) (a : LayerModel)
    (m : BlockModel) (hact : t.activeLayer = some a) (hmb : a.movingBlock = some m) :
    m.width = t.lastPlacedBlock.width ∧ m.depth = t.lastPlacedBlock.depth ∧
    m.position.get a.axis.other = t.lastPlacedBlock.position.get a.axis.other ∧
    ∃ (t1 : Tower) (events : List Event) (a1 : LayerModel) (result : Bool),
      t.place = some (t1, events) ∧ a.cut t.lastPlacedBlock = some (a1, result) ∧
      t1.layers[t.layers.length - 1]? = some a1 ∧
      a1.overlap = min (m.hi a.axis) (t.lastPlacedBlock.hi a.axis)
        - max (m.lo a.axis) (t.lastPlacedBlock.lo a.axis) ∧
      (result = true → ∃ placed, a1.placedBlock = some placed ∧
        ∀ ax, placed.lo ax = max (m.lo ax) (t.lastPlacedBlock.lo ax) ∧
          placed.hi ax = min (m.hi ax) (t.lastPlacedBlock.hi ax)) := by
  obtain ⟨top, rest, hinv⟩ := reachable_inv h
  rw [activeLayer_append t _ top hinv.layers_eq] at hact
  have ha := Option.some.inj hact
  subst ha
  have hlast := lastPlacedBlock_append t rest top hinv.layers_eq
  have hlen : t.layers.length - 1 = rest.reverse.length := by simp [hinv.layers_eq]
  rcases hinv.top_ok with hs | hmiss
  · obtain ⟨m0, hmb0, -, hw, hdp, hoth⟩ := hs.moving
    rw [hmb] at hmb0
    have hm0 := Option.some.inj hmb0
    subst hm0
    rw [← hlast] at hw hdp hoth
    have hsize : ∀ ax, m.size ax = t.lastPlacedBlock.size ax := by
      intro ax; cases ax <;> simpa [BlockModel.size]
    refine ⟨hw, hdp, hoth, ?_⟩
    by_cases ho : 0 < cutOverlap top m t.lastPlacedBlock
    · refine ⟨_, _, _, true, place_hit_eq t rest.reverse top m hinv.layers_eq hmb ho,
        cut_hit_eq top m _ hmb ho, ?_, cutOverlap_eq_inter top m _ (hsize _),
        fun _ => ⟨_, rfl, hitPlaced_footprint top m _ hsize hoth⟩⟩
      rw [hlen, List.getElem?_append_right (le_refl _)]
      simp
    · refine ⟨_, _, _, false, place_miss_eq t rest.reverse top m hinv.layers_eq hmb
        (not_lt.mp ho), cut_miss_eq top m _ hmb (not_lt.mp ho), ?_,
        cutOverlap_eq_inter top m _ (hsize _), fun hf => absurd hf (by simp)⟩
      rw [hlen, List.getElem?_append_right (le_refl _)]
      simp
  · rw [hmiss.moving] at hmb
    exact absurd hmb (by simp)

theorem overlap_is_intersection_witness :
    ∃ (t1 : Tower) (events : List Event) (a1 : LayerModel),
      towerAfterTick.place = some (t1, events) ∧
      a1.overlap = min ((-5 : ℚ) + 10 / 2) (towerAfterTick.lastPlacedBlock.hi Axis.x)
        - max ((-5 : ℚ) - 10 / 2) (towerAfterTick.lastPlacedBlock.lo Axis.x) := by
  have hl : towerAfterTick.layers = [] ++
      [{ axis := Axis.x
         movingBlock := some ⟨10, 3, 10, ⟨-5, 3, 0⟩, Color.movingBlock⟩
         placedBlock := none
         fallingBlock := none
         overlap := 0
         isCuttingBehind := false }] := rfl
  obtain ⟨-, -, -, t1, events, a1, -, h1, -, -, h4, -⟩ :=
    overlap_is_intersection towerAfterTick reachable_afterTick _
      ⟨10, 3, 10, ⟨-5, 3, 0⟩, Color.movingBlock⟩
      (activeLayer_append towerAfterTick [] _ hl) rfl
  exact ⟨t1, events, a1, h1, h4⟩

/-! ## Outcome of place and reset -/

/-- C11: for a tower whose active layer has a moving block, `place` returns
with exactly one outcome.  When the overlap with `lastPlacedBlock` is `≤ 0`
the only collaborator call is one `onFinish`, the score is unchanged and no
layer is appended.  Otherwise `onFinish` is not called, the score grows by
exactly `1`, `camera.syncPosition` is called once with the position of the
just-placed block and `onScoreUpdate` once with the new score, and one layer is
appended. -/
theorem place_outcome (t : Tower) (a : LayerModel) (m : BlockModel)
    (hact : t.activeLayer = some a) (hmb : a.movingBlock = some m) :
    (cutOverlap a m t.lastPlacedBlock ≤ 0 →
      ∃ t1 events, t.place = some (t1, events) ∧ events = [Event.finish] ∧
        events.count Event.finish = 1 ∧
        (∀ s, Event.scoreUpdate s ∉ events) ∧ (∀ p, Event.cameraSync p ∉ events) ∧
        t1.score = t.score ∧ t1.layers.length = t.layers.length) ∧
    (0 < cutOverlap a m t.lastPlacedBlock →
      ∃ t1 events a1 placed, t.place = some (t1, events) ∧
        a.cut t.lastPlacedBlock = some (a1, true) ∧ a1.placedBlock = some placed ∧
        events = [Event.cameraSync placed.position, Event.scoreUpdate (t.score + 1)] ∧
        Event.finish ∉ events ∧
        t1.score = t.score + 1 ∧
        (∀ s, events.count (Event.scoreUpdate s) = if s = t1.score then 1 else 0) ∧
        (∀ p, events.count (Event.cameraSync p) = if p = placed.position then 1 else 0) ∧
        t1.layers.length = t.layers.length + 1) := by
  obtain ⟨init, hl⟩ := activeLayer_some t a hact
  constructor
  · intro ho
    refine ⟨_, _, place_miss_eq t init a m hl hmb ho, rfl, by simp, by simp, by simp, rfl, ?_⟩
    simp [hl]
  · intro ho
    refine ⟨_, _, _, hitPlaced a m t.lastPlacedBlock, place_hit_eq t init a m hl hmb ho,
      cut_hit_eq a m _ hmb ho, rfl, rfl, by simp, rfl, ?_, ?_, ?_⟩
    · intro s
      by_cases hs : s = t.score + 1 <;> simp [hs, List.count_cons, eq_comm]
    · intro p
      by_cases hp : p = (hitPlaced a m t.lastPlacedBlock).position <;>
        simp [hp, List.count_cons, eq_comm]
    · simp [hl]

theorem place_outcome_witness :
    ∃ t1, towerAfterTick.place
      = some (t1, [Event.cameraSync ⟨-5 / 2, 3, 0⟩, Event.scoreUpdate 1]) ∧
      t1.score = towerAfterTick.score + 1 := by
  have hl : towerAfterTick.layers = [] ++
      [{ axis := Axis.x
         movingBlock := some ⟨10, 3, 10, ⟨-5, 3, 0⟩, Color.movingBlock⟩
         placedBlock := none
         fallingBlock := none
         overlap := 0
         isCuttingBehind := false }] := rfl
  have href : towerAfterTick.lastPlacedBlock = baseBlockInit := by
    rw [lastPlacedBlock_append towerAfterTick [] _ hl]
    rfl
  have ho : (0 : ℚ) < cutOverlap
      { axis := Axis.x
        movingBlock := some ⟨10, 3, 10, ⟨-5, 3, 0⟩, Color.movingBlock⟩
        placedBlock := none
        fallingBlock := none
        overlap := 0
        isCuttingBehind := false }
      ⟨10, 3, 10, ⟨-5, 3, 0⟩, Color.movingBlock⟩ towerAfterTick.lastPlacedBlock := by
    rw [href]
    norm_num [cutOverlap, baseBlockInit, BlockModel.new, LayerModel.isAxisX]
  obtain ⟨t1, events, a1, placed, h1, -, -, -, -, h6, -⟩ :=
    (place_outcome towerAfterTick _ _ (activeLayer_append towerAfterTick [] _ hl) rfl).2 ho
  refine ⟨t1, ?_, h6⟩
  rw [place_afterTick] at h1 ⊢
  simp only [Option.some.injEq, Prod.mk.injEq] at h1
  rw [h1.1]

/-- C12: for every tower `t`, `reset` leaves direction `+1`, score `0` and
exactly one layer: axis `x`, a 10 x 10 moving block at `(-15, 3, 0)`, no
placed and no falling block, which are the layers, direction and score of a
freshly constructed tower (the base block is not touched); it reports score
`0` to the score sink; and resetting twice gives the same state and the same
report as resetting once. -/
theorem reset_fresh (t : Tower) :
    t.reset.1.direction = 1 ∧ t.reset.1.score = 0 ∧
    t.reset.1.layers =
      [{ axis := Axis.x
         movingBlock := some ⟨10, 3, 10, ⟨-15, 3, 0⟩, Color.movingBlock⟩
         placedBlock := none
         fallingBlock := none
         overlap := 0
         isCuttingBehind := false }] ∧
    t.reset.1.layers = Tower.new.layers ∧
    t.reset.1.direction = Tower.new.direction ∧
    t.reset.1.score = Tower.new.score ∧
    t.reset.1.baseBlock = t.baseBlock ∧
    (t.baseBlock = Tower.new.baseBlock → t.reset.1 = Tower.new) ∧
    t.reset.2 = [Event.scoreUpdate 0] ∧
    t.reset.1.reset = t.reset := by
  refine ⟨rfl, rfl, ?_, rfl, rfl, rfl, rfl, ?_, rfl, rfl⟩
  · simp [Tower.reset, Tower.addFirstLayer, LayerModel.new, BlockModel.new,
      initMovingBlockPosition, MOVING_RANGE, BASE_BLOCK_SIZE_width, BASE_BLOCK_SIZE_depth,
      BASE_BLOCK_SIZE_height]
  · intro hb
    exact reset_eq t hb

/-! ## Shape of reachable towers -/

theorem stackOK_placed {base : BlockModel} {rest : List LayerModel} (h : StackOK base rest) :
    ∀ l ∈ rest, l.placedBlock.isSome = true := by
  induction rest with
  | nil => intro l hl; simp at hl
  | cons l0 r ih =>
    intro l hl
    rcases List.mem_cons.1 hl with rfl | hl
    · obtain ⟨p, hp, -⟩ := h.1.placed
      simp [hp]
    · exact ih h.2 l hl

/-- C16: in every reachable tower `layers` is non-empty; every layer is either
sliding (a moving block, no placed and no falling block) or resolved (no moving
block, a falling block), and a sliding layer is the last one; every layer below
the active one is resolved and has a placed block; and `lastPlacedBlock` is the
base block exactly when there is a single layer, and the placed block of the
layer below the active one otherwise. -/
theorem layers_wellformed (t : Tower) (h : Reachable t) :
    t.layers ≠ [] ∧
    (∀ (i : ℕ) (l : LayerModel), t.layers[i]? = some l →
      ((∃ m, l.movingBlock = some m) ∧ l.placedBlock = none ∧ l.fallingBlock = none ∧
        i + 1 = t.layers.length) ∨
      (l.movingBlock = none ∧ ∃ f, l.fallingBlock = some f)) ∧
    (∀ (i : ℕ) (l : LayerModel), t.layers[i]? = some l → i + 1 < t.layers.length →
      l.movingBlock = none ∧ (∃ f, l.fallingBlock = some f) ∧ ∃ p, l.placedBlock = some p) ∧
    (t.lastPlacedBlock = t.baseBlock ↔ t.layers.length = 1) ∧
    (∀ (j : ℕ), t.layers.length = j + 2 →
      ∃ l p, t.layers[j]? = some l ∧ l.placedBlock = some p ∧ t.lastPlacedBlock = p) := by
  obtain ⟨top, rest, hinv⟩ := reachable_inv h
  have hlast := lastPlacedBlock_append t rest top hinv.layers_eq
  have hlen : t.layers.length = rest.length + 1 := by simp [hinv.layers_eq]
  refine ⟨by rw [hinv.layers_eq]; simp, ?_, ?_, ?_, ?_⟩
  · intro i l hl
    have hok := towerInv_index hinv i l hl
    cases hm : l.movingBlock with
    | none => exact Or.inr ⟨rfl, hok.resolved hm⟩
    | some m =>
      obtain ⟨h1, h2, h3, -⟩ := hok.moving m hm
      exact Or.inl ⟨⟨m, rfl⟩, h2, h3, h1⟩
  · intro i l hl hlt
    have hok := towerInv_index hinv i l hl
    obtain ⟨p, hp⟩ := hok.lower hlt
    have hm := (hok.placed p hp).1
    exact ⟨hm, hok.resolved hm, p, hp⟩
  · rw [hlast, hlen]
    cases rest with
    | nil => simp [belowOf]
    | cons l r =>
      obtain ⟨p, hp, hok⟩ := hinv.stack.1.placed
      simp only [belowOf, hp, Option.getD_some, List.length_cons, add_left_eq_self,
        Nat.add_one_ne_zero, iff_false]
      intro hpb
      have hy := hok.y_eq
      rw [hpb, hinv.base_eq] at hy
      have hpos : (0 : ℚ) < ((r.length : ℚ) + 1) * BASE_BLOCK_SIZE_height := by
        have : (0 : ℚ) ≤ (r.length : ℚ) := Nat.cast_nonneg _
        norm_num [BASE_BLOCK_SIZE_height]
        linarith
      rw [← hy] at hpos
      norm_num [baseBlockInit, BlockModel.new] at hpos
  · intro j hj
    cases rest with
    | nil => simp at hlen; omega
    | cons l r =>
      obtain ⟨p, hp, -⟩ := hinv.stack.1.placed
      have hjr : j = r.reverse.length := by simp at hlen ⊢; omega
      refine ⟨l, p, ?_, hp, ?_⟩
      · rw [hinv.layers_eq, List.reverse_cons, List.append_assoc, hjr,
          List.getElem?_append_right (le_refl _)]
        simp
      · rw [hlast]
        simp [belowOf, hp]

theorem layers_wellformed_witness :
    towerAfterPlace.layers ≠ [] ∧
    towerAfterPlace.layers[0]? = some layerCut ∧
    layerCut.placedBlock = some ⟨5, 3, 10, ⟨-5 / 2, 3, 0⟩, Color.placedBlock⟩ ∧
    towerAfterPlace.lastPlacedBlock = ⟨5, 3, 10, ⟨-5 / 2, 3, 0⟩, Color.placedBlock⟩ := by
  obtain ⟨h1, -, -, -, h5⟩ := layers_wellformed towerAfterPlace reachable_afterPlace
  obtain ⟨l, p, hl, hp, hlast⟩ := h5 0 rfl
  have h0 : towerAfterPlace.layers[0]? = some layerCut := by simp [towerAfterPlace]
  rw [h0] at hl
  have hl1 := Option.some.inj hl
  subst hl1
  have hp1 : layerCut.placedBlock = some ⟨5, 3, 10, ⟨-5 / 2, 3, 0⟩, Color.placedBlock⟩ := rfl
  rw [hp1] at hp
  have hp2 := Option.some.inj hp
  subst hp2
  exact ⟨h1, h0, hp1, hlast⟩

theorem tickPosition_bounds (p : ℚ) (d : ℤ) (delta : ℚ) (hdelta : 0 ≤ delta)
    (hd : d = 1 ∨ d = -1) (hhi : MOVING_RANGE < p → d = 1) (hlo : p < -MOVING_RANGE → d = -1) :
    (MOVING_RANGE < p → tickPosition p d delta ≤ MOVING_RANGE) ∧
    (p < -MOVING_RANGE → -MOVING_RANGE ≤ tickPosition p d delta) ∧
    -MOVING_RANGE - SPEED_FACTOR * delta ≤ tickPosition p d delta ∧
    tickPosition p d delta ≤ MOVING_RANGE + SPEED_FACTOR * delta := by
  have hs : (0 : ℚ) ≤ SPEED_FACTOR * delta := mul_nonneg (by norm_num [SPEED_FACTOR]) hdelta
  have hR : (0 : ℚ) < MOVING_RANGE := by norm_num [MOVING_RANGE]
  by_cases h1 : MOVING_RANGE < p
  · have hd1 := hhi h1
    subst hd1
    have hp : tickPosition p 1 delta = MOVING_RANGE - SPEED_FACTOR * delta := by
      simp [tickPosition, h1]; ring
    rw [hp]
    exact ⟨fun _ => by linarith, fun h => absurd h (by linarith), by linarith, by linarith⟩
  · by_cases h2 : p < -MOVING_RANGE
    · have hd1 := hlo h2
      subst hd1
      have hp : tickPosition p (-1) delta = -MOVING_RANGE + SPEED_FACTOR * delta := by
        simp [tickPosition, h1, h2]; ring
      rw [hp]
      exact ⟨fun h => absurd h h1, fun _ => by linarith, by linarith, by linarith⟩
    · have hp : tickPosition p d delta = p + delta * SPEED_FACTOR * (d : ℚ) := by
        simp [tickPosition, h1, h2]
      rw [hp]
      refine ⟨fun h => absurd h h1, fun h => absurd h h2, ?_, ?_⟩ <;>
        rcases hd with hd | hd <;> subst hd <;> push_cast <;> linarith

/-- C19: in every reachable tower whose active layer has a moving block at
position `p` along the active axis, `p > R` implies direction `+1` and
`p < -R` implies direction `-1`; hence after a tick with `deltaTime` `t ≥ 0` a
block that was beyond `+R` is at or below `+R`, one that was beyond `-R` is at
or above `-R`, and in every case the position lies within
`[-R - speed*t, R + speed*t]` (`R = 15`, `speed = 10`). -/
theorem no_stuck_outside (t : Tower) (h : Reachable t) (a : LayerModel) (m : BlockModel)
    (hact : t.activeLayer = some a) (hmb : a.movingBlock = some m) :
    MOVING_RANGE = 15 ∧ SPEED_FACTOR = 10 ∧
    (MOVING_RANGE < m.position.get a.axis → t.direction = 1) ∧
    (m.position.get a.axis < -MOVING_RANGE → t.direction = -1) ∧
    ∀ delta : ℚ, 0 ≤ delta →
      ∃ t1 a1 m1, t.tick delta = some t1 ∧ t1.activeLayer = some a1 ∧
        a1.axis = a.axis ∧ a1.movingBlock = some m1 ∧
        (MOVING_RANGE < m.position.get a.axis → m1.position.get a.axis ≤ MOVING_RANGE) ∧
        (m.position.get a.axis < -MOVING_RANGE → -MOVING_RANGE ≤ m1.position.get a.axis) ∧
        -MOVING_RANGE - SPEED_FACTOR * delta ≤ m1.position.get a.axis ∧
        m1.position.get a.axis ≤ MOVING_RANGE + SPEED_FACTOR * delta := by
  obtain ⟨top, rest, hinv⟩ := reachable_inv h
  rw [activeLayer_append t _ top hinv.layers_eq] at hact
  have ha := Option.some.inj hact
  subst ha
  obtain ⟨hr1, hr2⟩ := hinv.range m hmb
  refine ⟨rfl, rfl, hr1, hr2, ?_⟩
  intro delta hdelta
  refine ⟨_, _, _, tick_eq t rest.reverse top m delta hinv.layers_eq hmb,
    activeLayer_append _ _ _ rfl, rfl, rfl, ?_⟩
  simp only [Vector3.get_set]
  exact tickPosition_bounds _ _ delta hdelta hinv.dir hr1 hr2

theorem no_stuck_outside_witness :
    ∃ t1 a1 m1, towerAfterTick.tick 3 = some t1 ∧ t1.activeLayer = some a1 ∧
      a1.movingBlock = some m1 ∧ m1.position.get Axis.x ≤ 15 + 10 * 3 := by
  have hl : towerAfterTick.layers = [] ++
      [{ axis := Axis.x
         movingBlock := some ⟨10, 3, 10, ⟨-5, 3, 0⟩, Color.movingBlock⟩
         placedBlock := none
         fallingBlock := none
         overlap := 0
         isCuttingBehind := false }] := rfl
  obtain ⟨-, -, -, -, h5⟩ :=
    no_stuck_outside towerAfterTick reachable_afterTick _
      ⟨10, 3, 10, ⟨-5, 3, 0⟩, Color.movingBlock⟩
      (activeLayer_append towerAfterTick [] _ hl) rfl
  obtain ⟨t1, a1, m1, h1, h2, -, h3, -, -, -, h4⟩ := h5 3 (by norm_num)
  refine ⟨t1, a1, m1, h1, h2, h3, ?_⟩
  simpa [MOVING_RANGE, SPEED_FACTOR] using h4

/-- C20: in every reachable tower `score = layers.length - 1`, the score is
not negative and equals the number of layers that hold a placed block; `tick`
leaves the score unchanged, `place` either adds exactly `1` to it and appends a
layer (success) or leaves it unchanged and reports the finish (miss), and
`reset` sets it to `0`. -/
theorem score_counts_layers (t : Tower) (h : Reachable t) :
    t.score = (t.layers.length : ℤ) - 1 ∧ 0 ≤ t.score ∧
    t.score = ((t.layers.filter fun l => l.placedBlock.isSome).length : ℤ) ∧
    (∀ (delta : ℚ) (t1 : Tower), t.tick delta = some t1 → t1.score = t.score) ∧
    (∀ (t1 : Tower) (events : List Event), t.place = some (t1, events) →
      (t1.score = t.score + 1 ∧ t1.layers.length = t.layers.length + 1 ∧
        Event.finish ∉ events) ∨
      (t1.score = t.score ∧ t1.layers.length = t.layers.length ∧
        events = [Event.finish])) ∧
    t.reset.1.score = 0 := by
  obtain ⟨top, rest, hinv⟩ := reachable_inv h
  have hlen : t.layers.length = rest.length + 1 := by simp [hinv.layers_eq]
  have htop : top.placedBlock = none := by
    rcases hinv.top_ok with hs | hm
    · exact hs.placed
    · exact hm.placed
  refine ⟨?_, ?_, ?_, ?_, ?_, rfl⟩
  · rw [hinv.score_eq, hlen]; push_cast; ring
  · rw [hinv.score_eq]; exact Int.natCast_nonneg _
  · rw [hinv.score_eq, hinv.layers_eq, List.filter_append,
      List.filter_eq_self.2 (fun l hl => stackOK_placed hinv.stack l (List.mem_reverse.1 hl))]
    simp [htop]
  · intro delta t1 htick
    rcases hinv.top_ok with hs | hm
    · obtain ⟨m, hmb, -⟩ := hs.moving
      rw [tick_eq t rest.reverse top m delta hinv.layers_eq hmb] at htick
      rw [← Option.some.inj htick]
    · rw [tick_idle_eq t top delta (activeLayer_append t _ top hinv.layers_eq) hm.moving]
        at htick
      rw [← Option.some.inj htick]
  · intro t1 events hplace
    obtain ⟨m, -, -, hcase⟩ := place_some_cases hinv hplace
    rcases hcase with ⟨-, ht1, hev⟩ | ⟨-, ht1, hev⟩
    · right
      subst ht1
      exact ⟨rfl, by simp [hinv.layers_eq], hev⟩
    · left
      subst ht1
      exact ⟨rfl, by simp [hinv.layers_eq], by simp [hev]⟩

theorem score_counts_layers_witness :
    towerAfterPlace.score = 1 ∧ towerAfterPlace.layers.length = 2 ∧
    towerAfterPlace.score = (towerAfterPlace.layers.length : ℤ) - 1 :=
  ⟨rfl, rfl, (score_counts_layers towerAfterPlace reachable_afterPlace).1⟩

/-! ## What a tick leaves unchanged -/

theorem getElem?_concat_cases {α : Type} (xs : List α) (a l : α) (i : ℕ)
    (h : (xs ++ [a])[i]? = some l) :
    (i < xs.length ∧ xs[i]? = some l) ∨ (i = xs.length ∧ l = a) := by
  rcases Nat.lt_or_ge i xs.length with hlt | hge
  · rw [List.getElem?_append_left hlt] at h
    exact Or.inl ⟨hlt, h⟩
  · rw [List.getElem?_append_right hge] at h
    have hi : i = xs.length := by
      by_contra hne
      have : i - xs.length ≠ 0 := by omega
      obtain ⟨k, hk⟩ := Nat.exists_eq_succ_of_ne_zero this
      rw [hk] at h
      simp at h
    subst hi
    simp at h
    exact Or.inr ⟨rfl, h.symm⟩

theorem tickFalling_falling (delta : ℚ) (l : LayerModel) :
    (LayerModel.tickFalling delta l).fallingBlock =
      l.fallingBlock.map fun f =>
        { f with position := { f.position with y := f.position.y - 25 * delta } } := by
  cases h : l.fallingBlock <;>
    simp [LayerModel.tickFalling, h, FallingBlockModel.tick, FALL_RATE, mul_comm]

/-- C18: `Tower.tick` returns whenever there is a layer, and what it returns
differs from the tower before only in (a) the `y` of every falling block,
lowered by exactly `25 * deltaTime`, and (b) the active moving block's
coordinate along the active axis and the direction.  The number and axes of
the layers, the score, the base block, every placed block, every block's size,
the `x` and `z` of every falling block, the moving block's `y` and its
coordinate on the other horizontal axis are unchanged; with no moving block on
the active layer the direction is unchanged too. -/
theorem tick_frame (t : Tower) (delta : ℚ) :
    (t.layers ≠ [] → ∃ t1, t.tick delta = some t1) ∧
    ∀ t1, t.tick delta = some t1 →
      t1.layers.length = t.layers.length ∧ t1.score = t.score ∧
      t1.baseBlock = t.baseBlock ∧
      (∀ (i : ℕ) (l : LayerModel), t.layers[i]? = some l →
        ∃ l1, t1.layers[i]? = some l1 ∧ l1.axis = l.axis ∧
          l1.placedBlock = l.placedBlock ∧
          l1.fallingBlock = l.fallingBlock.map (fun f =>
            { f with position := { f.position with y := f.position.y - 25 * delta } }) ∧
          (i + 1 < t.layers.length → l1.movingBlock = l.movingBlock) ∧
          (l.movingBlock = none → l1.movingBlock = none) ∧
          (∀ m, l.movingBlock = some m → ∃ m1, l1.movingBlock = some m1 ∧
            m1.width = m.width ∧ m1.height = m.height ∧ m1.depth = m.depth ∧
            m1.color = m.color ∧ m1.position.y = m.position.y ∧
            m1.position.get l.axis.other = m.position.get l.axis.other)) ∧
      (∀ a, t.activeLayer = some a → a.movingBlock = none →
        t1.direction = t.direction) := by
  have hdecomp : t.layers ≠ [] → ∃ init a, t.layers = init ++ [a] := by
    intro hne
    rcases List.eq_nil_or_concat t.layers with hnil | ⟨init, a, ha⟩
    · exact absurd hnil hne
    · exact ⟨init, a, by rw [ha, List.concat_eq_append]⟩
  constructor
  · intro hne
    obtain ⟨init, a, hl⟩ := hdecomp hne
    cases hm : a.movingBlock with
    | none => exact ⟨_, tick_idle_eq t a delta (activeLayer_append t init a hl) hm⟩
    | some m => exact ⟨_, tick_eq t init a m delta hl hm⟩
  · intro t1 htick
    have hne : t.layers ≠ [] := by
      intro hnil
      simp [Tower.tick, Tower.activeLayer, arrayGet, Tower.activeLayerIndex, hnil] at htick
    obtain ⟨init, a, hl⟩ := hdecomp hne
    have hact := activeLayer_append t init a hl
    have hrest : ∀ (i : ℕ) (l : LayerModel), i < init.length → init[i]? = some l →
        (init.map (LayerModel.tickFalling delta))[i]?
          = some (LayerModel.tickFalling delta l) := by
      intro i l _ hi
      simp [List.getElem?_map, hi]
    cases hm : a.movingBlock with
    | none =>
      rw [tick_idle_eq t a delta hact hm] at htick
      have ht1 := (Option.some.inj htick).symm
      subst ht1
      refine ⟨by simp, rfl, rfl, ?_, fun _ _ _ => rfl⟩
      intro i l hi
      refine ⟨LayerModel.tickFalling delta l, by simp [List.getElem?_map, hi], rfl, rfl,
        tickFalling_falling delta l, fun _ => rfl, fun h => h, ?_⟩
      intro m hmb
      exact ⟨m, hmb, rfl, rfl, rfl, rfl, rfl, rfl⟩
    | some m =>
      rw [tick_eq t init a m delta hl hm] at htick
      have ht1 := (Option.some.inj htick).symm
      subst ht1
      refine ⟨by simp [hl], rfl, rfl, ?_, ?_⟩
      · intro i l hi
        rw [hl] at hi
        rcases getElem?_concat_cases init a l i hi with ⟨hlt, hi1⟩ | ⟨hi1, hla⟩
        · refine ⟨LayerModel.tickFalling delta l, ?_, rfl, rfl, tickFalling_falling delta l,
            fun _ => rfl, fun h => h, ?_⟩
          · simp only
            rw [List.getElem?_append_left (by simpa using hlt)]
            exact hrest i l hlt hi1
          · intro m0 hmb
            exact ⟨m0, hmb, rfl, rfl, rfl, rfl, rfl, rfl⟩
        · subst hi1
          subst hla
          refine ⟨{ LayerModel.tickFalling delta l with
              movingBlock := some { m with
                position := m.position.set l.axis
                  (tickPosition (m.position.get l.axis) t.direction delta) } },
            ?_, rfl, rfl, tickFalling_falling delta l, ?_, ?_, ?_⟩
          · simp only
            rw [List.getElem?_append_right (by simp)]
            simp
          · intro hlt
            simp [hl] at hlt
          · intro hnone
            rw [hm] at hnone
            exact absurd hnone (by simp)
          · intro m0 hmb
            rw [hm] at hmb
            have := Option.some.inj hmb
            subst this
            exact ⟨_, rfl, rfl, rfl, rfl, rfl, Vector3.y_set _ _ _,
              Vector3.get_other_set _ _ _⟩
      · intro a0 ha0 hnone
        rw [hact] at ha0
        have := Option.some.inj ha0
        subst this
        rw [hm] at hnone
        exact absurd hnone (by simp)

/-! ## Block dimensions -/

theorem tick_centred : Tower.new.tick (3 / 2) = some towerCentred := by
  have hl : Tower.new.layers = [] ++ [LayerModel.new Axis.x 10 10 0 3 0] := rfl
  have hmb : (LayerModel.new Axis.x 10 10 0 3 0).movingBlock
      = some ⟨10, 3, 10, ⟨-15, 3, 0⟩, Color.movingBlock⟩ := by
    simp [LayerModel.new, BlockModel.new, initMovingBlockPosition, MOVING_RANGE,
      BASE_BLOCK_SIZE_height]
  rw [tick_eq Tower.new [] _ _ (3 / 2) hl hmb]
  norm_num [towerCentred, Tower.new, Tower.addFirstLayer, LayerModel.new,
    LayerModel.tickFalling, Vector3.get, Vector3.set, tickPosition, tickDirection, MOVING_RANGE,
    SPEED_FACTOR]

theorem place_centred :
    towerCentred.place = some (towerCentredPlaced,
      [Event.cameraSync ⟨0, 3, 0⟩, Event.scoreUpdate 1]) := by
  have hl : towerCentred.layers = [] ++
      [{ axis := Axis.x
         movingBlock := some ⟨10, 3, 10, ⟨0, 3, 0⟩, Color.movingBlock⟩
         placedBlock := none
         fallingBlock := none
         overlap := 0
         isCuttingBehind := false }] := rfl
  have href : towerCentred.lastPlacedBlock = baseBlockInit := by
    rw [lastPlacedBlock_append towerCentred [] _ hl]
    rfl
  have ho : cutOverlap
      { axis := Axis.x
        movingBlock := some ⟨10, 3, 10, ⟨0, 3, 0⟩, Color.movingBlock⟩
        placedBlock := none
        fallingBlock := none
        overlap := 0
        isCuttingBehind := false }
      ⟨10, 3, 10, ⟨0, 3, 0⟩, Color.movingBlock⟩ baseBlockInit = 10 := by
    norm_num [cutOverlap, baseBlockInit, BlockModel.new, LayerModel.isAxisX]
  rw [place_hit_eq towerCentred [] _ _ hl rfl (by rw [href, ho]; norm_num)]
  simp only [href, hitResult, hitPlaced, hitFalling, hitLayer, ho]
  norm_num [towerCentred, towerCentredPlaced, layerWhole, nextLayer, LayerModel.new,
    BlockModel.new, baseBlockInit, PlacedBlockModel.new, FallingBlockModel.new,
    calcPlacedBlockProps, getFallingBlockProps, calcPlacedBlockShift, calcFallingPosition,
    LayerModel.isAxisX, LayerModel.isAxisZ, Vector3.get, initMovingBlockPosition, MOVING_RANGE,
    BASE_BLOCK_SIZE_height, BASE_BLOCK_SIZE_width, BASE_BLOCK_SIZE_depth]
  decide

theorem reachable_centredPlaced : Reachable towerCentredPlaced :=
  Reachable.place (Reachable.tick (3 / 2) Reachable.init (by norm_num) tick_centred)
    place_centred

theorem tickFalling_dims (delta : ℚ) (l : LayerModel) (f1 : BlockModel)
    (h : (LayerModel.tickFalling delta l).fallingBlock = some f1) :
    ∃ f, l.fallingBlock = some f ∧ f1.width = f.width ∧ f1.depth = f.depth := by
  cases hf : l.fallingBlock with
  | none => simp [LayerModel.tickFalling, hf] at h
  | some f =>
    simp only [LayerModel.tickFalling, hf, Option.map_some', Option.some.injEq] at h
    subst h
    exact ⟨f, rfl, rfl, rfl⟩

theorem fallingOK_tick {t t1 : Tower} {top : LayerModel} {rest : List LayerModel} (delta : ℚ)
    (hinv : TowerInvAt t top rest) (hf : FallingOK t) (htick : t.tick delta = some t1) :
    FallingOK t1 := by
  have hmap : ∀ l ∈ t.layers, ∀ f1, (LayerModel.tickFalling delta l).fallingBlock = some f1 →
      0 ≤ f1.width ∧ 0 ≤ f1.depth := by
    intro l hl f1 hf1
    obtain ⟨f, hf0, hw, hd⟩ := tickFalling_dims delta l f1 hf1
    rw [hw, hd]
    exact hf l hl f hf0
  rcases hinv.top_ok with hs | hm
  · obtain ⟨m, hmb, -⟩ := hs.moving
    rw [tick_eq t rest.reverse top m delta hinv.layers_eq hmb] at htick
    have ht1 := (Option.some.inj htick).symm
    subst ht1
    intro l hl f1 hf1
    simp only [List.mem_append, List.mem_map, List.mem_singleton] at hl
    rcases hl with ⟨l0, hl0, rfl⟩ | rfl
    · exact hmap l0 (by rw [hinv.layers_eq]; simp [hl0]) f1 hf1
    · exact hmap top (by rw [hinv.layers_eq]; simp) f1 hf1
  · rw [tick_idle_eq t top delta (activeLayer_append t _ top hinv.layers_eq) hm.moving]
      at htick
    have ht1 := (Option.some.inj htick).symm
    subst ht1
    intro l hl f1 hf1
    simp only [List.mem_map] at hl
    obtain ⟨l0, hl0, rfl⟩ := hl
    exact hmap l0 hl0 f1 hf1

theorem fallingOK_place {t t1 : Tower} {top : LayerModel} {rest : List LayerModel}
    {events : List Event} (hinv : TowerInvAt t top rest) (hf : FallingOK t)
    (hplace : t.place = some (t1, events)) : FallingOK t1 := by
  obtain ⟨m, hmb, hs, hcase⟩ := place_some_cases hinv hplace
  obtain ⟨m0, hmb0, -, hw, hdp, -⟩ := hs.moving
  rw [hmb] at hmb0
  have hm0 := Option.some.inj hmb0
  subst hm0
  have hbase := baseBlockInit_pos
  rw [← hinv.base_eq] at hbase
  obtain ⟨hbw, hbd⟩ := belowOf_pos hinv.stack hbase.1 hbase.2
  have hold : ∀ l ∈ rest.reverse, ∀ f, l.fallingBlock = some f → 0 ≤ f.width ∧ 0 ≤ f.depth :=
    fun l hl f hfl => hf l (by rw [hinv.layers_eq]; simp [List.mem_reverse.1 hl]) f hfl
  rcases hcase with ⟨-, ht1, -⟩ | ⟨ho, ht1, -⟩
  · subst ht1
    intro l hl f hfl
    simp only [List.mem_append, List.mem_singleton] at hl
    rcases hl with hl | rfl
    · exact hold l hl f hfl
    · simp only [missResult, Option.some.injEq] at hfl
      subst hfl
      simp only [BlockModel.new, getLastBlockProps]
      constructor <;> linarith
  · subst ht1
    intro l hl f hfl
    simp only [List.mem_append, List.mem_cons, List.mem_singleton, List.not_mem_nil,
      or_false] at hl
    rcases hl with hl | rfl | rfl
    · exact hold l hl f hfl
    · simp only [hitResult, Option.some.injEq] at hfl
      subst hfl
      have h2 := (hit_geometry top m t.lastPlacedBlock).2.1
      have h3 := (hit_other top m t.lastPlacedBlock).2.1
      have hle := cutOverlap_le top m t.lastPlacedBlock
      cases hax : top.axis <;> rw [hax] at h2 h3 hle <;>
        simp only [BlockModel.size, Axis.other] at h2 h3 hle <;>
        constructor <;> linarith
    · simp [nextLayer, LayerModel.new] at hfl

theorem reachable_fallingOK {t : Tower} (h : Reachable t) : FallingOK t := by
  induction h with
  | init =>
    intro l hl f hfl
    simp [Tower.new, Tower.addFirstLayer, LayerModel.new] at hl
    subst hl
    simp at hfl
  | tick delta hr _ htick ih =>
    obtain ⟨top, rest, hinv⟩ := reachable_inv hr
    exact fallingOK_tick delta hinv ih htick
  | place hr hplace ih =>
    obtain ⟨top, rest, hinv⟩ := reachable_inv hr
    exact fallingOK_place hinv ih hplace
  | reset hr _ =>
    intro l hl f hfl
    simp [Tower.reset, Tower.addFirstLayer, LayerModel.new] at hl
    subst hl
    simp at hfl

theorem blockBelow_pos {t : Tower} {top : LayerModel} {rest : List LayerModel}
    (hinv : TowerInvAt t top rest) (i : ℕ) :
    0 < (blockBelow t.baseBlock t.layers i).width ∧
    0 < (blockBelow t.baseBlock t.layers i).depth := by
  have hbase := baseBlockInit_pos
  rw [← hinv.base_eq] at hbase
  cases i with
  | zero => exact hbase
  | succ j =>
    simp only [blockBelow]
    cases hj : t.layers[j]? with
    | none => simpa using hbase
    | some l =>
      cases hp : l.placedBlock with
      | none => simpa [hp] using hbase
      | some p =>
        have hok := ((towerInv_index hinv j l hj).placed p hp).2
        simpa [hp] using And.intro hok.width_pos hok.depth_pos

/-- C15 (as stated, refuted): the `BlockModel` constructor applied to width `0`
and depth `-1` is not rejected, it returns a block of width `0` and depth `-1`;
and the tower reached by `tick (3/2)` then `place` (a perfectly aligned cut)
holds a falling block of width `0`. -/
theorem block_not_rejected :
    (BlockModel.new { width := 0, depth := -1 }).width = 0 ∧
    (BlockModel.new { width := 0, depth := -1 }).depth = -1 ∧
    Reachable towerCentredPlaced ∧
    ∃ l f, towerCentredPlaced.layers[0]? = some l ∧ l.fallingBlock = some f ∧
      f.width = 0 ∧ ¬ 0 < f.width := by
  refine ⟨rfl, rfl, reachable_centredPlaced, layerWhole, _, ?_, rfl, rfl, ?_⟩
  · simp [towerCentredPlaced]
  · norm_num

/-- C15 (amended): constructing a block performs no validation: for every
width and depth, non-positive ones included, the `BlockModel` constructor
returns a block with exactly that width and depth.  In every reachable tower
the base block, every moving block and every placed block have strictly
positive width and depth, and every falling block has non-negative width and
depth. -/
theorem block_dimensions :
    (∀ props : BlockProps,
      (BlockModel.new props).width = props.width ∧
      (BlockModel.new props).depth = props.depth) ∧
    (∀ t : Tower, Reachable t →
      0 < t.baseBlock.width ∧ 0 < t.baseBlock.depth ∧
      ∀ (i : ℕ) (l : LayerModel), t.layers[i]? = some l →
        (∀ m, l.movingBlock = some m → 0 < m.width ∧ 0 < m.depth) ∧
        (∀ p, l.placedBlock = some p → 0 < p.width ∧ 0 < p.depth) ∧
        (∀ f, l.fallingBlock = some f → 0 ≤ f.width ∧ 0 ≤ f.depth)) := by
  refine ⟨fun props => ⟨rfl, rfl⟩, ?_⟩
  intro t h
  obtain ⟨top, rest, hinv⟩ := reachable_inv h
  have hbase := baseBlockInit_pos
  rw [← hinv.base_eq] at hbase
  refine ⟨hbase.1, hbase.2, ?_⟩
  intro i l hl
  have hok := towerInv_index hinv i l hl
  obtain ⟨hbw, hbd⟩ := blockBelow_pos hinv i
  refine ⟨?_, ?_, ?_⟩
  · intro m hm
    obtain ⟨-, -, -, -, hw, hd, -⟩ := hok.moving m hm
    rw [hw, hd]
    exact ⟨hbw, hbd⟩
  · intro p hp
    exact ⟨(hok.placed p hp).2.width_pos, (hok.placed p hp).2.depth_pos⟩
  · intro f hf
    exact reachable_fallingOK h l (List.getElem?_mem hl) f hf

theorem block_dimensions_witness :
    towerCentredPlaced.layers[0]? = some layerWhole ∧
    layerWhole.fallingBlock = some ⟨0, 3, 10, ⟨5, 3, 0⟩, Color.fallingBlock⟩ ∧
    (0 : ℚ) ≤ 0 ∧ (0 : ℚ) ≤ 10 := by
  have h0 : towerCentredPlaced.layers[0]? = some layerWhole := by simp [towerCentredPlaced]
  obtain ⟨h1, h2⟩ :=
    ((block_dimensions.2 towerCentredPlaced reachable_centredPlaced).2.2 0 layerWhole h0).2.2
      ⟨0, 3, 10, ⟨5, 3, 0⟩, Color.fallingBlock⟩ rfl
  exact ⟨h0, rfl, h1, h2⟩

/-! ## The game controller -/

theorem click_started : Game.new.startGame.1.click = some (gameLost, [Event.finish]) := by
  have hl : Game.new.startGame.1.tower.layers = [] ++ [LayerModel.new Axis.x 10 10 0 3 0] := rfl
  have hmb : (LayerModel.new Axis.x 10 10 0 3 0).movingBlock
      = some ⟨10, 3, 10, ⟨-15, 3, 0⟩, Color.movingBlock⟩ := by
    simp [LayerModel.new, BlockModel.new, initMovingBlockPosition, MOVING_RANGE,
      BASE_BLOCK_SIZE_height]
  have href : Game.new.startGame.1.tower.lastPlacedBlock = baseBlockInit := by
    rw [lastPlacedBlock_append _ [] _ hl]
    rfl
  have ho : cutOverlap (LayerModel.new Axis.x 10 10 0 3 0)
      ⟨10, 3, 10, ⟨-15, 3, 0⟩, Color.movingBlock⟩ baseBlockInit = -5 := by
    norm_num [cutOverlap, baseBlockInit, BlockModel.new, LayerModel.isAxisX, LayerModel.new]
  have hplace := place_miss_eq Game.new.startGame.1.tower [] _ _ hl hmb
    (by rw [href, ho]; norm_num)
  have hflags : (!Game.new.startGame.1.isGameActive || Game.new.startGame.1.isGameOver)
      = false := rfl
  unfold Game.click
  rw [hflags]
  simp only [Bool.false_eq_true, if_false, hplace, href, missResult, ho]
  simp [gameLost, layerMissed, Game.handleAll, Game.handle, Game.endGame, Game.startGame,
    Game.new, Tower.reset, Tower.addFirstLayer, Game.updateScore, LayerModel.new,
    BlockModel.new, getLastBlockProps, BASE_BLOCK_SIZE_height]
  rfl

theorem gameReachable_lost : GameReachable gameLost :=
  GameReachable.click (GameReachable.start GameReachable.init) click_started

theorem handleAll_finish (g : Game) : g.handleAll [Event.finish] = g.endGame := rfl

theorem handleAll_hit (g : Game) (p : Vector3) (s : ℤ) :
    g.handleAll [Event.cameraSync p, Event.scoreUpdate s] = g.updateScore s := rfl

theorem click_accepted (g : Game) (ha : g.isGameActive = true) (ho : g.isGameOver = false) :
    g.click = g.tower.place.map
      fun r => (({ g with tower := r.1 }).handleAll r.2, r.2) := by
  unfold Game.click
  simp only [ha, ho, Bool.not_true, Bool.or_false, Bool.false_eq_true, if_false]
  cases g.tower.place with
  | none => rfl
  | some r => rfl

theorem click_refused (g : Game) (h : g.isGameActive = false ∨ g.isGameOver = true) :
    g.click = some (g, []) := by
  unfold Game.click
  rcases h with h | h <;> simp [h]

theorem place_fresh (t : Tower) :
    ∃ t1 events, t.reset.1.place = some (t1, events) ∧ events ≠ [] := by
  have hl : t.reset.1.layers = [] ++ [LayerModel.new Axis.x BASE_BLOCK_SIZE_width
      BASE_BLOCK_SIZE_depth 0 BASE_BLOCK_SIZE_height 0] := rfl
  obtain ⟨m, hm⟩ : ∃ m, (LayerModel.new Axis.x BASE_BLOCK_SIZE_width
      BASE_BLOCK_SIZE_depth 0 BASE_BLOCK_SIZE_height 0).movingBlock = some m := ⟨_, rfl⟩
  by_cases ho : 0 < cutOverlap (LayerModel.new Axis.x BASE_BLOCK_SIZE_width
      BASE_BLOCK_SIZE_depth 0 BASE_BLOCK_SIZE_height 0) m t.reset.1.lastPlacedBlock
  · exact ⟨_, _, place_hit_eq t.reset.1 [] _ m hl hm ho, by simp⟩
  · exact ⟨_, _, place_miss_eq t.reset.1 [] _ m hl hm (not_lt.mp ho), by simp⟩

theorem handle_over (g : Game) (e : Event) (h : g.isGameOver = true) :
    (g.handle e).isGameOver = true := by
  cases e with
  | scoreUpdate score => exact h
  | finish => rfl
  | cameraSync position => exact h

theorem handleAll_over (g : Game) (events : List Event)
    (h : g.isGameOver = true ∨ Event.finish ∈ events) :
    (g.handleAll events).isGameOver = true := by
  unfold Game.handleAll
  induction events generalizing g with
  | nil =>
    rcases h with h | h
    · exact h
    · simp at h
  | cons e es ih =>
    simp only [List.foldl_cons]
    apply ih
    rcases h with h | h
    · exact Or.inl (handle_over g e h)
    · rcases List.mem_cons.1 h with h1 | h1
      · subst h1
        exact Or.inl rfl
      · exact Or.inr h1

/-- C13: the place action calls `Tower.place` only when `_isGameActive` is
true and `_isGameOver` is false; otherwise (idle, as the constructed game is, or
game over) it returns the game unchanged, tower, score and both flags included,
and no collaborator call is made.  A place action whose `Tower.place` reports
the finish, as it does on an overlap `≤ 0`, leaves `_isGameOver` true, so the
next place action is such a no-op.  Once `_isGameOver` is true it stays true
through the start action and through frames; the restart action clears it and
sets `_isGameActive`, after which the place action calls `Tower.place`
again. -/
theorem click_gated (g : Game) :
    ((g.isGameActive = false ∨ g.isGameOver = true) → g.click = some (g, [])) ∧
    (g.isGameActive = true → g.isGameOver = false →
      g.click = g.tower.place.map
        fun r => (({ g with tower := r.1 }).handleAll r.2, r.2)) ∧
    (g.isGameOver = true →
      g.startGame.1.isGameOver = true ∧
      g.startGame.1.click = some (g.startGame.1, []) ∧
      (∀ (elapsedTime : ℚ) (g1 : Game), g.tick elapsedTime = some g1 →
        g1.isGameOver = true ∧ g1.click = some (g1, [])) ∧
      g.restart.1.isGameOver = false ∧ g.restart.1.isGameActive = true ∧
      g.restart.1.click = g.restart.1.tower.place.map
        (fun r => (({ g.restart.1 with tower := r.1 }).handleAll r.2, r.2)) ∧
      ∃ g1 events, g.restart.1.click = some (g1, events) ∧ events ≠ []) ∧
    (Game.new.isGameActive = false ∧ Game.new.isGameOver = false ∧
      Game.new.click = some (Game.new, [])) ∧
    (∀ (g1 : Game) (events : List Event), g.click = some (g1, events) →
      Event.finish ∈ events →
      g1.isGameOver = true ∧ g1.click = some (g1, []) ∧
      g1.startGame.1.click = some (g1.startGame.1, []) ∧
      g1.restart.1.isGameOver = false) ∧
    (g.isGameActive = true → g.isGameOver = false →
      ∀ (a : LayerModel) (m : BlockModel), g.tower.activeLayer = some a →
        a.movingBlock = some m → cutOverlap a m g.tower.lastPlacedBlock ≤ 0 →
        ∃ g1, g.click = some (g1, [Event.finish]) ∧
          g1.isGameOver = true ∧ g1.isGameActive = true ∧ g1.scoreText = g.scoreText ∧
          g1.click = some (g1, [])) := by
  have hstartOver : ∀ g0 : Game, g0.isGameOver = true → g0.startGame.1.isGameOver = true := by
    intro g0 hover
    simp [Game.startGame, Tower.reset, Game.handleAll, Game.handle, Game.updateScore, hover]
  refine ⟨click_refused g, click_accepted g, ?_, ⟨rfl, rfl, click_refused _ (Or.inl rfl)⟩,
    ?_, ?_⟩
  · intro hover
    have hstart := hstartOver g hover
    have hr1 : g.restart.1.isGameOver = false := rfl
    have hr2 : g.restart.1.isGameActive = true := rfl
    refine ⟨hstart, click_refused _ (Or.inr hstart), ?_, hr1, hr2,
      click_accepted _ hr2 hr1, ?_⟩
    · intro elapsedTime g1 htick
      have hg1 : g1.isGameOver = true := by
        unfold Game.tick at htick
        by_cases ha : g.isGameActive = true
        · simp only [ha, if_true, Option.map_eq_some'] at htick
          obtain ⟨t1, -, ht1⟩ := htick
          rw [← ht1]
          exact hover
        · simp only [ha, Bool.false_eq_true, if_false, Option.some.injEq] at htick
          rw [← htick]
          exact hover
      exact ⟨hg1, click_refused _ (Or.inr hg1)⟩
    · obtain ⟨t1, events, hplace, hne⟩ := place_fresh g.tower
      have htower : g.restart.1.tower = g.tower.reset.1 := rfl
      refine ⟨({ g.restart.1 with tower := t1 }).handleAll events, events, ?_, hne⟩
      rw [click_accepted _ hr2 hr1, htower, hplace]
      rfl
  · intro g1 events hclick hfin
    by_cases hflag : g.isGameActive = true ∧ g.isGameOver = false
    · rw [click_accepted g hflag.1 hflag.2] at hclick
      simp only [Option.map_eq_some', Prod.mk.injEq] at hclick
      obtain ⟨⟨t1, ev⟩, -, hg1, hev⟩ := hclick
      simp only at hg1 hev
      subst hev
      have hover : g1.isGameOver = true := by
        rw [← hg1]
        exact handleAll_over _ _ (Or.inr hfin)
      exact ⟨hover, click_refused _ (Or.inr hover),
        click_refused _ (Or.inr (hstartOver g1 hover)), rfl⟩
    · have hor : g.isGameActive = false ∨ g.isGameOver = true := by
        cases ha : g.isGameActive <;> cases hov : g.isGameOver <;> simp_all
      rw [click_refused g hor] at hclick
      simp only [Option.some.injEq, Prod.mk.injEq] at hclick
      rw [← hclick.2] at hfin
      simp at hfin
  · intro hactive hover a m hact hmb ho
    obtain ⟨init, hl⟩ := activeLayer_some g.tower a hact
    have hplace := place_miss_eq g.tower init a m hl hmb ho
    refine ⟨({ g with tower := { g.tower with
        layers := init ++ [missResult a m g.tower.lastPlacedBlock] } }).endGame, ?_, rfl,
      hactive, rfl, click_refused _ (Or.inr rfl)⟩
    rw [click_accepted g hactive hover, hplace]
    rfl

theorem click_gated_witness :
    Game.new.startGame.1.click = some (gameLost, [Event.finish]) ∧
    gameLost.isGameOver = true ∧ gameLost.click = some (gameLost, []) := by
  obtain ⟨h1, h2, -⟩ :=
    (click_gated Game.new.startGame.1).2.2.2.2.1 gameLost [Event.finish] click_started
      (by simp)
  exact ⟨click_started, h1, h2⟩

theorem handleAll_tower (g : Game) (events : List Event) :
    (g.handleAll events).tower = g.tower ∧
    (g.handleAll events).isGameActive = g.isGameActive ∧
    (g.handleAll events).prevTimer = g.prevTimer := by
  unfold Game.handleAll
  induction events generalizing g with
  | nil => exact ⟨rfl, rfl, rfl⟩
  | cons e es ih =>
    simp only [List.foldl_cons]
    obtain ⟨h1, h2, h3⟩ := ih (g.handle e)
    rw [h1, h2, h3]
    cases e <;> exact ⟨rfl, rfl, rfl⟩

theorem click_cases {g g1 : Game} {events : List Event} (h : g.click = some (g1, events)) :
    (g1 = g ∧ events = [] ∧ (g.isGameActive = false ∨ g.isGameOver = true)) ∨
    (g.isGameActive = true ∧ g.isGameOver = false ∧
      ∃ t1, g.tower.place = some (t1, events) ∧
        g1 = ({ g with tower := t1 }).handleAll events) := by
  by_cases hflag : g.isGameActive = true ∧ g.isGameOver = false
  · rw [click_accepted g hflag.1 hflag.2] at h
    simp only [Option.map_eq_some', Prod.mk.injEq] at h
    obtain ⟨⟨t1, ev⟩, hplace, hg1, hev⟩ := h
    simp only at hg1 hev
    subst hev
    exact Or.inr ⟨hflag.1, hflag.2, t1, hplace, hg1.symm⟩
  · have hor : g.isGameActive = false ∨ g.isGameOver = true := by
      cases ha : g.isGameActive <;> cases hov : g.isGameOver <;> simp_all
    rw [click_refused g hor] at h
    simp only [Option.some.injEq, Prod.mk.injEq] at h
    exact Or.inl ⟨h.1.symm, h.2.symm, hor⟩

theorem game_tick_cases {g g1 : Game} {elapsedTime : ℚ} (h : g.tick elapsedTime = some g1) :
    g1.isGameOver = g.isGameOver ∧ g1.isGameActive = g.isGameActive ∧
    ((g.isGameActive = false ∧ g1.tower = g.tower) ∨
     (g.isGameActive = true ∧ g.tower.tick (elapsedTime - g.prevTimer) = some g1.tower)) := by
  unfold Game.tick at h
  by_cases ha : g.isGameActive = true
  · simp only [ha, if_true, Option.map_eq_some'] at h
    obtain ⟨t1, ht1, hg1⟩ := h
    subst hg1
    exact ⟨rfl, ha.symm, Or.inr ⟨ha, ht1⟩⟩
  · have hf : g.isGameActive = false := by simpa using ha
    simp only [hf, Bool.false_eq_true, if_false, Option.some.injEq] at h
    subst h
    exact ⟨rfl, hf.symm, Or.inl ⟨hf, rfl⟩⟩

theorem game_tower_reachable {g : Game} (h : GameReachable g) : Reachable g.tower := by
  induction h with
  | init => exact Reachable.init
  | start _ ih => exact Reachable.reset ih
  | click _ hclick ih =>
    rcases click_cases hclick with ⟨hg1, -, -⟩ | ⟨-, -, t1, hplace, hg1⟩
    · rw [hg1]; exact ih
    · rw [hg1, (handleAll_tower _ _).1]
      exact Reachable.place ih hplace
  | restart _ ih => exact Reachable.reset ih
  | frame elapsedTime _ hle htick ih =>
    obtain ⟨-, -, hcase⟩ := game_tick_cases htick
    rcases hcase with ⟨-, ht⟩ | ⟨-, ht⟩
    · rw [ht]; exact ih
    · exact Reachable.tick _ ih (by linarith) ht

theorem game_over_active {g : Game} (h : GameReachable g) :
    g.isGameOver = true → g.isGameActive = true := by
  induction h with
  | init => intro hover; exact absurd hover (by simp [Game.new])
  | start _ _ => intro _; exact (handleAll_tower _ _).2.1
  | click _ hclick ih =>
    rcases click_cases hclick with ⟨hg1, -, -⟩ | ⟨ha, -, t1, -, hg1⟩
    · rw [hg1]; exact ih
    · intro _
      rw [hg1, (handleAll_tower _ _).2.1]
      exact ha
  | restart _ _ => intro _; rfl
  | frame elapsedTime _ _ htick ih =>
    obtain ⟨h1, h2, -⟩ := game_tick_cases htick
    rw [h1, h2]
    exact ih

theorem reset_moving (t : Tower) :
    ∃ a m, t.reset.1.activeLayer = some a ∧ a.movingBlock = some m :=
  ⟨_, _, activeLayer_append t.reset.1 [] _ rfl, rfl⟩

theorem game_moving {g : Game} (h : GameReachable g) :
    g.isGameOver = false → ∃ a m, g.tower.activeLayer = some a ∧ a.movingBlock = some m := by
  induction h with
  | init => intro _; exact ⟨_, _, activeLayer_append Tower.new [] _ rfl, rfl⟩
  | start _ _ => intro _; exact reset_moving _
  | @click g0 g1 events hg hclick ih =>
    intro hover
    rcases click_cases hclick with ⟨hg1, -, -⟩ | ⟨-, hov0, t1, hplace, hg1⟩
    · rw [hg1] at hover ⊢; exact ih hover
    · obtain ⟨top, rest, hinv⟩ := reachable_inv (game_tower_reachable hg)
      obtain ⟨m, -, -, hcase⟩ := place_some_cases hinv hplace
      rcases hcase with ⟨-, -, hev⟩ | ⟨-, ht1, -⟩
      · subst hev
        rw [hg1, handleAll_finish] at hover
        exact absurd hover (by simp [Game.endGame])
      · rw [hg1, (handleAll_tower _ _).1]
        obtain ⟨nm, hnm, -⟩ := nextLayer_moving top
          (hitPlaced top m g0.tower.lastPlacedBlock) rest.reverse.length
        exact ⟨_, nm, activeLayer_append t1
          (rest.reverse ++ [hitResult top m g0.tower.lastPlacedBlock]) _
          (by rw [ht1]; simp), hnm⟩
  | restart _ _ => intro _; exact reset_moving _
  | @frame g0 g1 elapsedTime hg _ htick ih =>
    intro hover
    obtain ⟨h1, -, hcase⟩ := game_tick_cases htick
    rw [h1] at hover
    obtain ⟨a, m, hact, hmb⟩ := ih hover
    rcases hcase with ⟨-, ht⟩ | ⟨-, ht⟩
    · rw [ht]; exact ⟨a, m, hact, hmb⟩
    · obtain ⟨init, hl⟩ := activeLayer_some g0.tower a hact
      rw [tick_eq g0.tower init a m _ hl hmb] at ht
      rw [← Option.some.inj ht]
      exact ⟨_, _, activeLayer_append _ _ _ rfl, rfl⟩

theorem game_tick_active (g : Game) (elapsedTime : ℚ) (ha : g.isGameActive = true) :
    g.tick elapsedTime = (g.tower.tick (elapsedTime - g.prevTimer)).map
      fun t1 => { g with prevTimer := elapsedTime, tower := t1 } := by
  unfold Game.tick
  simp only [ha, if_true]

theorem game_tick_idle (g : Game) (elapsedTime : ℚ) (ha : g.isGameActive = false) :
    g.tick elapsedTime = some { g with prevTimer := elapsedTime } := by
  unfold Game.tick
  simp [ha]

/-- C14 (as stated, refuted): `gameLost` is reached by the start action and a
place action at once, so the game is over; yet a frame at clock reading `1`
runs `Tower.tick` and moves the falling block from `y = 3` to `y = -22`. -/
theorem frame_after_game_over :
    GameReachable gameLost ∧ gameLost.isGameOver = true ∧
    ∃ (g1 : Game) (l : LayerModel) (f : BlockModel),
      gameLost.tick 1 = some g1 ∧ g1.tower.layers[0]? = some l ∧
      l.fallingBlock = some f ∧ f.position.y = -22 ∧ g1.tower ≠ gameLost.tower := by
  have hact : gameLost.tower.activeLayer = some layerMissed :=
    activeLayer_append gameLost.tower [] layerMissed rfl
  have hg : gameLost.tick 1 = some
      { gameLost with
        prevTimer := 1
        tower := { gameLost.tower with
          layers := gameLost.tower.layers.map
            (LayerModel.tickFalling (1 - gameLost.prevTimer)) } } := by
    rw [game_tick_active gameLost 1 rfl,
      tick_idle_eq gameLost.tower layerMissed (1 - gameLost.prevTimer) hact rfl]
    rfl
  refine ⟨gameReachable_lost, rfl,
    { gameLost with
      prevTimer := 1
      tower := { gameLost.tower with
        layers := gameLost.tower.layers.map
          (LayerModel.tickFalling (1 - gameLost.prevTimer)) } },
    LayerModel.tickFalling (1 - gameLost.prevTimer) layerMissed,
    FallingBlockModel.tick ⟨10, 3, 10, ⟨-15, 3, 0⟩, Color.fallingBlock⟩
      (1 - gameLost.prevTimer), hg, ?_, ?_, ?_, ?_⟩
  · simp [gameLost]
  · simp [LayerModel.tickFalling, layerMissed]
  · norm_num [FallingBlockModel.tick, FALL_RATE, gameLost]
  · intro heq
    have hl := congrArg Tower.layers heq
    simp [gameLost, LayerModel.tickFalling, layerMissed, FallingBlockModel.tick, FALL_RATE]
      at hl

/-- C14 (amended): a frame (`Game.tick`) invokes `Tower.tick` exactly when
`_isGameActive` is true, whatever `_isGameOver` is.  With `_isGameActive`
false (idle) the frame only records the clock reading and leaves the tower
unchanged, falling blocks included; with `_isGameActive` true it replaces the
tower by `Tower.tick` of the elapsed delta.  In every reachable game-over state
`_isGameActive` is still true, so frames keep running `Tower.tick` after a
failed place. -/
theorem frame_gated (g : Game) (elapsedTime : ℚ) :
    (g.isGameActive = false →
      g.tick elapsedTime = some { g with prevTimer := elapsedTime }) ∧
    (g.isGameActive = true →
      g.tick elapsedTime = (g.tower.tick (elapsedTime - g.prevTimer)).map
        fun t1 => { g with prevTimer := elapsedTime, tower := t1 }) ∧
    (GameReachable g → g.isGameOver = true →
      g.isGameActive = true ∧
      g.tick elapsedTime = (g.tower.tick (elapsedTime - g.prevTimer)).map
        fun t1 => { g with prevTimer := elapsedTime, tower := t1 }) :=
  ⟨game_tick_idle g elapsedTime, game_tick_active g elapsedTime,
    fun hr hover => ⟨game_over_active hr hover,
      game_tick_active g elapsedTime (game_over_active hr hover)⟩⟩

theorem frame_gated_witness :
    Game.new.tick 5 = some { Game.new with prevTimer := 5 } ∧
    gameLost.isGameActive = true :=
  ⟨(frame_gated Game.new 5).1 rfl, ((frame_gated gameLost 1).2.2 gameReachable_lost rfl).1⟩

/-- C17: in every reachable game state, `_isGameOver == false` implies that
the tower's active layer still has its moving block; hence whenever the place
action is accepted (`_isGameActive` true and `_isGameOver` false) the active
layer has a moving block, `cut` and `Tower.place` return instead of reading a
null `movingBlock`, and the place action never throws. -/
theorem place_accepted_safe (g : Game) (h : GameReachable g) :
    (g.isGameOver = false →
      ∃ a m, g.tower.activeLayer = some a ∧ a.movingBlock = some m) ∧
    (g.isGameActive = true → g.isGameOver = false →
      ∃ a m, g.tower.activeLayer = some a ∧ a.movingBlock = some m ∧
        (∃ r, a.cut g.tower.lastPlacedBlock = some r) ∧
        (∃ r, g.tower.place = some r) ∧
        g.click = g.tower.place.map
          (fun r => (({ g with tower := r.1 }).handleAll r.2, r.2))) ∧
    (∃ r, g.click = some r) := by
  have hplace : g.isGameOver = false → ∃ a m, g.tower.activeLayer = some a ∧
      a.movingBlock = some m ∧ (∃ r, a.cut g.tower.lastPlacedBlock = some r) ∧
      (∃ r, g.tower.place = some r) := by
    intro hover
    obtain ⟨a, m, hact, hmb⟩ := game_moving h hover
    obtain ⟨init, hl⟩ := activeLayer_some g.tower a hact
    obtain ⟨a1, ha1⟩ := cut_result a m g.tower.lastPlacedBlock hmb
    refine ⟨a, m, hact, hmb, ⟨_, ha1⟩, ?_⟩
    by_cases ho : 0 < cutOverlap a m g.tower.lastPlacedBlock
    · exact ⟨_, place_hit_eq g.tower init a m hl hmb ho⟩
    · exact ⟨_, place_miss_eq g.tower init a m hl hmb (not_lt.mp ho)⟩
  refine ⟨game_moving h, ?_, ?_⟩
  · intro hactive hover
    obtain ⟨a, m, hact, hmb, hcut, hpl⟩ := hplace hover
    exact ⟨a, m, hact, hmb, hcut, hpl, click_accepted g hactive hover⟩
  · by_cases hflag : g.isGameActive = true ∧ g.isGameOver = false
    · obtain ⟨-, -, -, -, -, ⟨r, hr⟩⟩ := hplace hflag.2
      rw [click_accepted g hflag.1 hflag.2, hr]
      exact ⟨_, rfl⟩
    · have hor : g.isGameActive = false ∨ g.isGameOver = true := by
        cases ha : g.isGameActive <;> cases hov : g.isGameOver <;> simp_all
      exact ⟨_, click_refused g hor⟩

theorem place_accepted_safe_witness :
    Game.new.startGame.1.isGameActive = true ∧ Game.new.startGame.1.isGameOver = false ∧
    ∃ a m, Game.new.startGame.1.tower.activeLayer = some a ∧ a.movingBlock = some m ∧
      Game.new.startGame.1.click = some (gameLost, [Event.finish]) := by
  obtain ⟨a, m, h1, h2, -⟩ :=
    (place_accepted_safe Game.new.startGame.1 (GameReachable.start GameReachable.init)).2.1
      rfl rfl
  exact ⟨rfl, rfl, a, m, h1, h2, click_started⟩


/-! ## The cut as evaluated in doubles -/

theorem roundDouble_019 : roundDouble (19 / 100) = delta019 := by decide!

theorem tickD_new : Tower.new.tickD 1 = some towerAfterTick := by decide!

theorem tickD_afterTick : towerAfterTick.tickD delta019 = some towerSlid := by decide!

theorem cutD_slid : layerSlid.cutD baseBlockInit = some (layerSlidCut, true) := by decide!

theorem placeD_slid :
    towerSlid.placeD = some (towerSlidPlaced,
      [Event.cameraSync placedSlid.position, Event.scoreUpdate 1]) := by decide!

/-- C3 (as stated, refuted): in doubles, the cut of a 10 wide moving block at
the binary64 value `-3.1` over the base block at `0` succeeds, behind, with a
placed block of width `6.9` and a falling block of width `3.0999999999999996`;
the falling block's upper edge lies `2^-51` below the placed block's lower
edge, so the two extents share no coordinate and a coordinate of the moving
block's extent lies in neither, and the falling block's lower edge lies below
the moving block's lower edge. -/
theorem cut_tiles_fails_in_doubles :
    layerSlid.movingBlock = some blockSlid ∧
    layerSlid.cutD baseBlockInit = some (layerSlidCut, true) ∧
    layerSlidCut.placedBlock = some placedSlid ∧
    layerSlidCut.fallingBlock = some fallingSlid ∧
    layerSlidCut.isCuttingBehind = true ∧
    placedSlid.lo Axis.x - fallingSlid.hi Axis.x = 1 / 2251799813685248 ∧
    fallingSlid.hi Axis.x ≠ placedSlid.lo Axis.x ∧
    (blockSlid.covers Axis.x ((fallingSlid.hi Axis.x + placedSlid.lo Axis.x) / 2) ∧
      ¬ placedSlid.covers Axis.x ((fallingSlid.hi Axis.x + placedSlid.lo Axis.x) / 2) ∧
      ¬ fallingSlid.covers Axis.x ((fallingSlid.hi Axis.x + placedSlid.lo Axis.x) / 2)) ∧
    fallingSlid.lo Axis.x < blockSlid.lo Axis.x ∧
    (fallingSlid.covers Axis.x (fallingSlid.lo Axis.x) ∧
      ¬ blockSlid.covers Axis.x (fallingSlid.lo Axis.x)) := by
  decide!

/-- C4 (as stated, refuted): in doubles, the fresh tower after `tick(1)`,
`tick(0.19)` and `place()` has stored the overlap `6.9`, which exceeds the
length of the intersection of the moving block's extent with the base block's
extent by `2^-51`, and the placed block's lower edge lies `2^-51` below the
base block's lower edge `-5`: the placed block overhangs the block beneath
it. -/
theorem overlap_not_intersection_in_doubles :
    roundDouble (19 / 100) = delta019 ∧
    Tower.new.tickD 1 = some towerAfterTick ∧
    towerAfterTick.tickD delta019 = some towerSlid ∧
    towerSlid.activeLayer = some layerSlid ∧
    layerSlid.movingBlock = some blockSlid ∧
    towerSlid.lastPlacedBlock = baseBlockInit ∧
    blockSlid.width = baseBlockInit.width ∧ blockSlid.depth = baseBlockInit.depth ∧
    blockSlid.position.z = baseBlockInit.position.z ∧
    towerSlid.placeD = some (towerSlidPlaced,
      [Event.cameraSync placedSlid.position, Event.scoreUpdate 1]) ∧
    towerSlidPlaced.layers[0]? = some layerSlidCut ∧
    layerSlidCut.placedBlock = some placedSlid ∧
    layerSlidCut.overlap - (min (blockSlid.hi Axis.x) (baseBlockInit.hi Axis.x)
        - max (blockSlid.lo Axis.x) (baseBlockInit.lo Axis.x)) = 1 / 2251799813685248 ∧
    layerSlidCut.overlap ≠ min (blockSlid.hi Axis.x) (baseBlockInit.hi Axis.x)
        - max (blockSlid.lo Axis.x) (baseBlockInit.lo Axis.x) ∧
    baseBlockInit.lo Axis.x = -5 ∧
    baseBlockInit.lo Axis.x - placedSlid.lo Axis.x = 1 / 2251799813685248 ∧
    placedSlid.lo Axis.x < baseBlockInit.lo Axis.x ∧
    placedSlid.lo Axis.x ≠ max (blockSlid.lo Axis.x) (baseBlockInit.lo Axis.x) := by
  decide!

end Stack
